import Mathlib

set_option maxRecDepth 8000

/-!
Shallow embedding of `src/library/src/DjVuDocument.js` (the core document model:
lazy page + dependency loading, memory eviction, slice and concat rewriting).

The external collaborators (ByteStream, DjVuPage, DIRMChunk, DjVuWriter, the
chunk decoders and the transport) are not part of the source tree; where their
behaviour is needed it is modelled from the spec and marked as such.  Machine
integers are modelled as Nat/Int (JS numbers never overflow at the byte counts
involved); fallible code returns Except/Option; the fetch transport is an
oracle `String → FetchOutcome` passed to the operations that perform I/O.
-/

/-- Lookup in a JS-object-like association list (`m[k]`), first match wins. -/
def lookupId : List (String × Nat) → String → Option Nat
  | [], _ => none
  | (k', v) :: rest, k => if k' = k then some v else lookupId rest k

/-- JS object property assignment `m[k] = v`: replaces the entry when the key
is already present, appends at the end otherwise (JS insertion order). -/
def objSet : List (String × Nat) → String → Nat → List (String × Nat)
  | [], k, v => [(k, v)]
  | (k', v') :: rest, k, v =>
    if k' = k then (k, v) :: rest else (k', v') :: objSet rest k v

/-- Total byte length of the resident shared resources (`this.djvi`):
sum of `djvi[id].bs.buffer.byteLength` over all identifiers. -/
def djviBytes (m : List (String × Nat)) : Int :=
  (m.map (fun e => (e.2 : Int))).sum

/-- Modelled from the spec: the Page contract (external `DjVuPage`).  A page
exposes its shared-resource dependency identifiers (`getDependencies`), its
backing byte length (`bs.buffer.byteLength`, the underlying fetched buffer)
and a `reset` operation dropping cached decode state.  `token` models JS
object identity (`===`): distinct objects carry distinct tokens. -/
structure DjVuPage where
  token : Nat
  byteLength : Nat
  deps : List String
  deriving DecidableEq, Repr

/-- Modelled from the spec: what the code reads out of a fetched buffer.
`magicOk` is whether the first 4 bytes are the `AT&T` signature, `formId` the
8-byte form tag that follows (e.g. `FORMDJVI`), `byteLength` the byte length
of the whole buffer, `pageDeps` the dependency identifiers obtained when the
buffer is decoded as a page, and `token` the identity of the object built. -/
structure Blob where
  magicOk : Bool
  formId : String
  byteLength : Nat
  pageDeps : List String
  token : Nat
  deriving DecidableEq, Repr

/-- Modelled from the spec: the transport contract.  `fetch(url)` fails
distinctly for connectivity failure versus a non-success response, and
otherwise yields the bytes (here: the decoded view of them). -/
inductive FetchOutcome where
  | networkFailure
  | unsuccessful
  | success (blob : Blob)
  deriving DecidableEq, Repr

/-- Externally observable actions of a call: fetching a URL, or releasing a
page's cached decode state (`page.reset()`), identified by the page token. -/
inductive Effect where
  | fetch (url : String)
  | reset (token : Nat)
  deriving DecidableEq, Repr

def Effect.isFetch : Effect → Bool
  | .fetch _ => true
  | .reset _ => false

/-- The error taxonomy of `DjVuErrors.js` (constructors carry the context the
source attaches; message strings are abbreviated). -/
inductive DjVuError where
  | incorrectFileFormat
  | corruptedFile (message : String)
  | noSuchPage (pageNumber : Int)
  | noBaseUrl
  | network (pageNumber : Option Int) (dependencyId : Option String) (url : String)
  | unsuccessfulRequest (pageNumber : Option Int) (dependencyId : Option String)
  deriving DecidableEq, Repr

/-- The `DjVuDocument` state.  Fields `id`, `baseUrl`, `pages`, `djvi`,
`loadedPageNumbers`, `memoryUsage`, `memoryLimit`, `lastRequestedPage`,
`isOnePageDependenciesLoaded` and `idToPageNumberMap` are the source's own
fields (`djvi` holds each resource's byte length, the only datum the core
reads from a `DjViChunk`; `idToPageNumberMap` is `none` exactly when the
source never initialises it, i.e. for single-page documents).  The `dirm*`
fields model the external DIRM chunk decoder from the spec: bundled flag,
page count, page-number → filename and identifier → filename lookups. -/
structure DjVuDocument where
  id : String
  hasDirm : Bool
  dirmIsBundled : Bool
  dirmPagesQuantity : Nat
  dirmPageName : Int → String
  dirmComponentName : String → String
  idToPageNumberMap : Option (List (String × Nat))
  baseUrl : Option String
  pages : List (Option DjVuPage)
  djvi : List (String × Nat)
  loadedPageNumbers : List Nat
  memoryUsage : Int
  memoryLimit : Int
  lastRequestedPage : Option DjVuPage
  isOnePageDependenciesLoaded : Bool

/-- `isBundled()`: `this.dirm ? this.dirm.isBundled : true`. -/
def isBundled (d : DjVuDocument) : Bool :=
  if d.hasDirm then d.dirmIsBundled else true

/-- `getPagesQuantity()`: `this.dirm ? this.dirm.getPagesQuantity() : 1`. -/
def getPagesQuantity (d : DjVuDocument) : Nat :=
  if d.hasDirm then d.dirmPagesQuantity else 1

/-- `this.pages[number - 1]`: JS indexing yields `undefined` outside
`[0, length)` and for still-empty slots. -/
def slotAt (d : DjVuDocument) (number : Int) : Option DjVuPage :=
  if 1 ≤ number ∧ number ≤ (d.pages.length : Int) then
    (d.pages[(number - 1).toNat]?).join
  else none

/-- JS string concatenation starting from `this.baseUrl`: concatenating onto
the JS value `null` renders it as the string `"null"`. -/
def jsStringOfBaseUrl : Option String → String
  | none => "null"
  | some s => s

/-- The URL of a dependency fetch:
`this.baseUrl + (this.dirm ? this.dirm.getComponentNameByItsId(id) : id)`. -/
def depUrl (d : DjVuDocument) (id : String) : String :=
  jsStringOfBaseUrl d.baseUrl ++ (if d.hasDirm then d.dirmComponentName id else id)

/-- One concurrent batch of `_loadDependencies` (lines 259-290), linearised in
list order.  Every task runs to completion (`Promise.all` does not cancel the
siblings): each identifier whose own fetch succeeds and validates is installed
into `djvi` and its byte length added to `memoryUsage`, while the error of the
first failing task (network failure, non-success response, bad magic or a
form tag other than `FORMDJVI`) is what the surrounding `await` rejects with. -/
def loadDepsLoop (fetch : String → FetchOutcome) (pageNumber : Option Int) :
    List String → DjVuDocument → Option DjVuError × DjVuDocument × List Effect
  | [], d => (none, d, [])
  | id :: rest, d =>
    let url := depUrl d id
    match fetch url with
    | .networkFailure =>
      let (e, d', effs) := loadDepsLoop fetch pageNumber rest d
      ((some (.network pageNumber (some id) url)).orElse (fun _ => e), d', .fetch url :: effs)
    | .unsuccessful =>
      let (e, d', effs) := loadDepsLoop fetch pageNumber rest d
      ((some (.unsuccessfulRequest pageNumber (some id))).orElse (fun _ => e), d', .fetch url :: effs)
    | .success blob =>
      if blob.magicOk = false then
        let (e, d', effs) := loadDepsLoop fetch pageNumber rest d
        ((some (.corruptedFile "dependency magic")).orElse (fun _ => e), d', .fetch url :: effs)
      else if blob.formId ≠ "FORMDJVI" then
        let (e, d', effs) := loadDepsLoop fetch pageNumber rest d
        ((some (.corruptedFile "dependency form")).orElse (fun _ => e), d', .fetch url :: effs)
      else
        let d₁ := { d with djvi := objSet d.djvi id blob.byteLength,
                           memoryUsage := d.memoryUsage + (blob.byteLength : Int) }
        let (e, d', effs) := loadDepsLoop fetch pageNumber rest d₁
        (e, d', .fetch url :: effs)

/-- `_loadDependencies(dependencies, pageNumber)` (lines 254-291): filter to
the identifiers not already resident, return at once when none remain,
otherwise run the fetch batch. -/
def loadDependencies (d : DjVuDocument) (fetch : String → FetchOutcome)
    (dependencies : List String) (pageNumber : Option Int) :
    Option DjVuError × DjVuDocument × List Effect :=
  let unloadedDependencies := dependencies.filter (fun id => (lookupId d.djvi id).isNone)
  if unloadedDependencies.isEmpty then (none, d, [])
  else loadDepsLoop fetch pageNumber unloadedDependencies d

/-- Byte length of the loaded page sitting in slot `i`
(`this.pages[number].bs.buffer.byteLength`).  The source would crash on an
empty slot; the eviction loop only ever reads slots listed in
`loadedPageNumbers`, which the invariants keep loaded, so the 0 default is
never exercised by the theorems below. -/
def pageBytesAt (slots : List (Option DjVuPage)) (i : Nat) : Int :=
  match (slots[i]?).join with
  | some p => (p.byteLength : Int)
  | none => 0

/-- The page-eviction `while` loop of `releaseMemoryIfRequired` (lines
176-180): while over budget and pages remain loaded, shift the oldest-loaded
slot index, subtract its byte length and clear the slot. -/
def evictPagesLoop (limit : Int) :
    List (Option DjVuPage) → List Nat → Int → List (Option DjVuPage) × List Nat × Int
  | slots, [], mem => (slots, [], mem)
  | slots, n :: rest, mem =>
    if limit < mem then
      evictPagesLoop limit (slots.set n none) rest (mem - pageBytesAt slots n)
    else (slots, n :: rest, mem)

/-- `newDjVi`: the shared-resource map rebuilt from the preserve set
(`preservedDependencies.forEach(id => newDjVi[id] = this.djvi[id])`).  The
source would crash (TypeError) on a preserved identifier that is not
resident; the model skips such an identifier, and every theorem below invokes
the governor only with resident preserve sets. -/
def restrictDjvi (djvi : List (String × Nat)) (preserved : List String) :
    List (String × Nat) :=
  preserved.foldl
    (fun m id =>
      match lookupId djvi id with
      | some len => objSet m id len
      | none => m)
    []

/-- Bytes added back while building `newDjVi`
(`this.memoryUsage += newDjVi[id].bs.buffer.byteLength` per preserved id). -/
def preservedBytes (djvi : List (String × Nat)) (preserved : List String) : Int :=
  (preserved.map (fun id => ((lookupId djvi id).getD 0 : Int))).sum

/-- `releaseMemoryIfRequired(preservedDependencies)` (lines 170-199): no-op
when within budget; otherwise evict loaded pages FIFO, and if still over
budget with no loaded pages left, release the held decode state
(`resetLastRequestedPage`) and rebuild `djvi` keeping only the preserve set,
adding back every preserved resource's length and subtracting every old
resident resource's length. -/
def releaseMemoryIfRequired (d : DjVuDocument) (preservedDependencies : Option (List String)) :
    DjVuDocument × List Effect :=
  if d.memoryUsage ≤ d.memoryLimit then (d, [])
  else
    let r := evictPagesLoop d.memoryLimit d.pages d.loadedPageNumbers d.memoryUsage
    if d.memoryLimit < r.2.2 ∧ r.2.1 = [] then
      ({ d with pages := r.1, loadedPageNumbers := r.2.1,
                memoryUsage := r.2.2
                  + preservedBytes d.djvi (preservedDependencies.getD [])
                  - djviBytes d.djvi,
                djvi := restrictDjvi d.djvi (preservedDependencies.getD []),
                lastRequestedPage := none },
        match d.lastRequestedPage with
        | some p => [Effect.reset p.token]
        | none => [])
    else
      ({ d with pages := r.1, loadedPageNumbers := r.2.1, memoryUsage := r.2.2 }, [])

/-- `getPage(number)` (lines 201-252), with the fetch transport passed as an
oracle.  Returns the result, the post-state and the observable effects in
order.  The asynchronous suspension points of the source are linearised.
`this.lastRequestedPage = page` happens before any check, so even the error
paths carry the pointer overwrite; reads of fields the assignment does not
touch (`pages`, `isBundled`, `baseUrl`, `dirm`, `id`) are written against the
pre-assignment state, which is identical. -/
def getPage (d : DjVuDocument) (fetch : String → FetchOutcome) (number : Int) :
    Except DjVuError DjVuPage × DjVuDocument × List Effect :=
  let page := slotAt d number
  let resetEffects :=
    match d.lastRequestedPage, page with
    | some prev, some p => if prev.token ≠ p.token then [Effect.reset prev.token] else []
    | some prev, none => [Effect.reset prev.token]
    | none, _ => []
  match page with
  | none =>
    if number < 1 ∨ (d.pages.length : Int) < number ∨ isBundled d then
      (.error (.noSuchPage number), { d with lastRequestedPage := none }, resetEffects)
    else if d.baseUrl = none then
      (.error .noBaseUrl, { d with lastRequestedPage := none }, resetEffects)
    else
      let url := jsStringOfBaseUrl d.baseUrl ++ d.dirmPageName number
      match fetch url with
      | .networkFailure =>
        (.error (.network (some number) none url), { d with lastRequestedPage := none },
          resetEffects ++ [.fetch url])
      | .unsuccessful =>
        (.error (.unsuccessfulRequest (some number) none), { d with lastRequestedPage := none },
          resetEffects ++ [.fetch url])
      | .success blob =>
        if blob.magicOk = false then
          (.error (.corruptedFile "page magic"), { d with lastRequestedPage := none },
            resetEffects ++ [.fetch url])
        else
          let newPage : DjVuPage :=
            { token := blob.token, byteLength := blob.byteLength, deps := blob.pageDeps }
          match loadDependencies
              { d with lastRequestedPage := none,
                       memoryUsage := d.memoryUsage + (blob.byteLength : Int) }
              fetch newPage.deps (some number) with
          | (some e, d₂, depEffects) =>
            (.error e, d₂, resetEffects ++ [.fetch url] ++ depEffects)
          | (none, d₂, depEffects) =>
            let rel := releaseMemoryIfRequired d₂ (some newPage.deps)
            (.ok newPage,
              { rel.1 with
                  pages := rel.1.pages.set (number - 1).toNat (some newPage),
                  loadedPageNumbers := rel.1.loadedPageNumbers ++ [(number - 1).toNat],
                  lastRequestedPage := some newPage },
              resetEffects ++ [.fetch url] ++ depEffects ++ rel.2)
  | some p =>
    if d.isOnePageDependenciesLoaded = false ∧ d.id = "FORMDJVU" then
      if p.deps.isEmpty then
        (.ok p,
          { d with lastRequestedPage := some p, isOnePageDependenciesLoaded := true },
          resetEffects)
      else
        match loadDependencies { d with lastRequestedPage := some p } fetch p.deps (some 1) with
        | (some e, d₂, depEffects) => (.error e, d₂, resetEffects ++ depEffects)
        | (none, d₂, depEffects) =>
          (.ok p, { d₂ with isOnePageDependenciesLoaded := true }, resetEffects ++ depEffects)
    else (.ok p, { d with lastRequestedPage := some p }, resetEffects)

/-- Modelled from the spec: `Math.round(Number(ref))` on the fragment strings
the lookup meets.  The empty string parses to 0 (JS `Number("") = 0`), a pure
decimal digit string (leading zeros allowed, such as `"057"`) to its value,
and any other string to NaN (`none`); fractional, signed and exponent forms
are outside the fragments this development evaluates. -/
def jsRoundNumber (s : String) : Option Int :=
  if s.data = [] then some 0
  else if s.data.all (fun c => c.isDigit) then
    some (s.data.foldl (fun acc c => acc * 10 + ((c.toNat - 48 : Nat) : Int)) 0)
  else none

/-- `getPageNumberByUrl(url)` (lines 153-168).  The outer `Option` is JS
control flow: `none` is the TypeError raised when `this.idToPageNumberMap`
was never initialised (single-page documents) and the fragment check passed;
`some r` is a normal return, with `r = none` for JS `null`. -/
def getPageNumberByUrl (d : DjVuDocument) (url : String) : Option (Option Nat) :=
  if url.data.head? ≠ some '#' then some none
  else
    match d.idToPageNumberMap with
    | none => none
    | some m =>
      let ref : String := ⟨url.data.drop 1⟩
      let pageNumber := (lookupId m ref).getD 0
      let pageNumber :=
        if pageNumber = 0 then
          match jsRoundNumber ref with
          | some num =>
            if 1 ≤ num ∧ num ≤ (d.pages.length : Int) then num.toNat else 0
          | none => 0
        else pageNumber
      some (if pageNumber = 0 then none else some pageNumber)

/-- JS `String.prototype.trim`, written over the character list so that it
computes by structural recursion: drop whitespace from the front, then from
the back. -/
def jsTrim (s : String) : String :=
  ⟨((s.data.dropWhile Char.isWhitespace).reverse.dropWhile Char.isWhitespace).reverse⟩

/-- JS `url.endsWith('/')`, written over the character list. -/
def endsWithSlash (s : String) : Bool :=
  s.data.getLast? == some '/'

/-- Constructor base-URL normalisation (lines 23-31): JS `null` stays `null`,
an empty string stays falsy and untouched, otherwise the string is trimmed
and given a trailing slash.  The relative-to-absolute rewrite through the
browser global `location` is external and omitted. -/
def normalizeBaseUrl : Option String → Option String
  | none => none
  | some s =>
    if s = "" then some ""
    else
      let t := jsTrim s
      some (if t = "" then t else if endsWithSlash t then t else t ++ "/")

/-- The Document Builder's indirect branch (constructor plus
`_initMultiPageDocument`, lines 66-72): a fixed-length empty slot sequence
sized to the directory's page count, no resident pages or resources, and the
resident-byte counter initialised to the header buffer's size
(`this.memoryUsage = this.bs.buffer.byteLength`). -/
def mkIndirectDocument (headerByteLength : Nat) (pagesQuantity : Nat)
    (baseUrl : Option String) (memoryLimit : Int)
    (dirmPageName : Int → String) (dirmComponentName : String → String) : DjVuDocument :=
  { id := "FORMDJVM"
    hasDirm := true
    dirmIsBundled := false
    dirmPagesQuantity := pagesQuantity
    dirmPageName := dirmPageName
    dirmComponentName := dirmComponentName
    idToPageNumberMap := some []
    baseUrl := normalizeBaseUrl baseUrl
    pages := List.replicate pagesQuantity none
    djvi := []
    loadedPageNumbers := []
    memoryUsage := (headerByteLength : Int)
    memoryLimit := memoryLimit
    lastRequestedPage := none
    isOnePageDependenciesLoaded := false }

/-- The Document Builder's single-page branch (lines 47-49): one loaded page,
no directory; `idToPageNumberMap` is never initialised.  The source leaves
`memoryUsage` undefined for such documents; the model carries 0, and no
theorem below reads it on this branch. -/
def mkSinglePageDocument (page : DjVuPage) (baseUrl : Option String)
    (memoryLimit : Int) : DjVuDocument :=
  { id := "FORMDJVU"
    hasDirm := false
    dirmIsBundled := false
    dirmPagesQuantity := 0
    dirmPageName := fun _ => ""
    dirmComponentName := fun s => s
    idToPageNumberMap := none
    baseUrl := normalizeBaseUrl baseUrl
    pages := [some page]
    djvi := []
    loadedPageNumbers := []
    memoryUsage := 0
    memoryLimit := memoryLimit
    lastRequestedPage := none
    isOnePageDependenciesLoaded := false }

/-- Modelled from the spec: JS `Number.prototype.toString()` on the counter,
i.e. the usual decimal rendering of a natural number, built on `Nat.digits`
so that injectivity is provable. -/
def natToString (n : Nat) : String :=
  if n = 0 then "0"
  else ⟨(Nat.digits 10 n).reverse.map (fun digit => Char.ofNat (48 + digit))⟩

/-- The identifier-deduplication `while` loop of `concat` (lines 470-475 and
483-488): starting from the original identifier, try `orig + tmp.toString()`
for `tmp = 0, 1, 2, …` until the candidate is not in `idset`.  The JS loop is
unbounded; the model carries fuel, and `idset.length + 1` candidates always
suffice (proved below), so the fuel fallback is never reached. -/
def genUniqueAux (orig : String) (idset : List String) : Nat → Nat → String
  | tmp, 0 => orig ++ natToString tmp
  | tmp, fuel + 1 =>
    let candidate := orig ++ natToString tmp
    if candidate ∈ idset then genUniqueAux orig idset (tmp + 1) fuel else candidate

/-- `var newid = orig; while (idset.has(newid)) { newid = orig + tmp.toString(); tmp++; }` -/
def genUniqueId (orig : String) (idset : List String) : String :=
  if orig ∈ idset then genUniqueAux orig idset 0 (idset.length + 1) else orig

/-- One side of `concat` (its `doc1`/`doc2` arguments), reduced to what the
merger reads: either a bare single-page document without a directory (it
contributes its sole page's `bs.length`), or a document with a directory,
from which the merger reads `dirm.flags[i]`, `dirm.sizes[i]` and
`dirm.ids[i]` for `i` below `pages.length`. -/
inductive ConcatSide where
  | bare (pageLength : Nat)
  | withDirm (flags : List Nat) (sizes : List Nat) (ids : List String) (pagesLength : Nat)
  deriving Repr

/-- The directory description `concat` hands to the writer. -/
structure ConcatDirm where
  dflags : Nat
  flags : List Nat
  sizes : List Nat
  ids : List String
  deriving DecidableEq, Repr

/-- Modelled from the spec: the DIRM flag word's bundled marker (document-wide
bundled flag), kept in the top bit of the flag byte. -/
def dirmFlagMarksBundled (dflags : Nat) : Bool :=
  dflags.testBit 7

/-- The per-entry body of `concat`'s second-document copy loop (lines 482-491):
append the entry's flag byte, size and deduplicated identifier to the output
directory, and record the new identifier in `idset`. -/
def concatStep (acc : ConcatDirm × List String) (entry : Nat × Nat × String) :
    ConcatDirm × List String :=
  let newid := genUniqueId entry.2.2 acc.2
  ({ acc.1 with
      flags := acc.1.flags ++ [entry.1]
      sizes := acc.1.sizes ++ [entry.2.1]
      ids := acc.1.ids ++ [newid] }, acc.2 ++ [newid])

/-- `DjVuDocument.concat(doc1, doc2)` (lines 440-493), at the directory level:
the output `dirm` record.  `dflags` is forced to 129 (bundled).  The first
document's entries are copied verbatim (or one synthesised entry `'single'`
for a bare page); the second document's identifiers are deduplicated against
`idset` with the numeric-counter loop.  As in the source, the bare-`doc2`
branch does not add its generated identifier to `idset`, and entries of a
document with a directory are read at the page indices `0 … pages.length-1`. -/
def concat (doc1 doc2 : ConcatSide) : ConcatDirm :=
  let start : ConcatDirm := { dflags := 129, flags := [], sizes := [], ids := [] }
  let afterDoc1 : ConcatDirm × List String :=
    match doc1 with
    | .bare pageLength =>
      ({ start with flags := [1], sizes := [pageLength], ids := ["single"] }, ["single"])
    | .withDirm flags sizes ids pagesLength =>
      ({ start with
          flags := flags.take pagesLength
          sizes := sizes.take pagesLength
          ids := ids.take pagesLength }, ids.take pagesLength)
  let dirm₁ := afterDoc1.1
  let idset₁ := afterDoc1.2
  match doc2 with
  | .bare pageLength =>
    { dirm₁ with
        flags := dirm₁.flags ++ [1]
        sizes := dirm₁.sizes ++ [pageLength]
        ids := dirm₁.ids ++ [genUniqueId "single2" idset₁] }
  | .withDirm flags sizes ids pagesLength =>
    ((((flags.take pagesLength).zip ((sizes.take pagesLength).zip (ids.take pagesLength))).foldl
        concatStep (dirm₁, idset₁))).1

/-- A directory entry of a bundled multi-page document, bundling what `slice`
reads: the DIRM metadata columns (`flags`, `sizes`, `ids`, `names`,
`titles`), plus the two externally decoded facts about the raw byte span at
the entry's offset — `formId`, the span's form tag (what `_parseComponents`
dispatches on when the produced buffer is re-parsed), and `deps`, the
dependency identifiers `new DjVuPage(span).getDependencies()` yields (only
read for page entries).  Both are modelled from the spec's decoder
contracts. -/
structure DirmEntry where
  flags : Nat
  size : Nat
  id : String
  name : String
  title : String
  formId : String
  deps : List String
  deriving DecidableEq, Repr

/-- `(this.dirm.flags[i] & 63) === 1`: the entry is a page. -/
def isPageEntry (e : DirmEntry) : Bool :=
  e.flags &&& 63 == 1

/-- Pass 1 of `slice` (lines 375-392): walk the directory entries in order
while fewer than `pageNumber` in-range pages have been added, counting page
positions, and union the dependency identifiers of every page whose position
is at least `frm`.  `pageIndex` and `added` are the loop's counters. -/
def slicePass1 : List DirmEntry → Nat → Nat → Nat → Nat → List String
  | [], _, _, _, _ => []
  | e :: rest, frm, pageNumber, pageIndex, added =>
    if added < pageNumber then
      if isPageEntry e then
        if pageIndex + 1 < frm then slicePass1 rest frm pageNumber (pageIndex + 1) added
        else e.deps ++ slicePass1 rest frm pageNumber (pageIndex + 1) (added + 1)
      else slicePass1 rest frm pageNumber pageIndex added
    else []

/-- Pass 2 of `slice` (lines 397-420): walk the entries again under the same
loop guard; pages below the range are skipped, and an entry is copied when it
is an in-range page or its identifier is in the pass-1 dependency set. -/
def slicePass2 : List DirmEntry → Nat → Nat → List String → Nat → Nat → List DirmEntry
  | [], _, _, _, _, _ => []
  | e :: rest, frm, pageNumber, depSet, pageIndex, added =>
    if added < pageNumber then
      if isPageEntry e then
        if pageIndex + 1 < frm then slicePass2 rest frm pageNumber depSet (pageIndex + 1) added
        else e :: slicePass2 rest frm pageNumber depSet (pageIndex + 1) (added + 1)
      else
        if e.id ∈ depSet then e :: slicePass2 rest frm pageNumber depSet pageIndex added
        else slicePass2 rest frm pageNumber depSet pageIndex added
    else []

/-- `slice(from, to)` (lines 355-435) at the directory level: the list of
entries (metadata plus raw span) handed to the writer, in original order.
`pageNumber = to - from + 1` (truncated at 0 as the JS loop guard also never
fires for a non-positive count). -/
def sliceDocument (entries : List DirmEntry) (frm toPage : Nat) : List DirmEntry :=
  let pageNumber := toPage + 1 - frm
  slicePass2 entries frm pageNumber (slicePass1 entries frm pageNumber 0 0) 0 0

/-- Modelled from the spec: re-parsing the buffer the writer serialises from
the copied entries (Document Builder, bundled branch) materialises one page
per copied `FORMDJVU` span, in order. -/
def reparsedPageEntries (out : List DirmEntry) : List DirmEntry :=
  out.filter (fun e => e.formId == "FORMDJVU")

/-- Modelled from the spec: the re-parsed document's shared-resource
identifiers are those of the copied `FORMDJVI` spans. -/
def reparsedResourceIds (out : List DirmEntry) : List String :=
  (out.filter (fun e => e.formId == "FORMDJVI")).map (fun e => e.id)

/-- Modelled from the spec: the re-parsed document's thumbnails are the
copied `FORMTHUM` spans. -/
def reparsedThumbEntries (out : List DirmEntry) : List DirmEntry :=
  out.filter (fun e => e.formId == "FORMTHUM")

/-- The number of entries the `slice` loops examine when the range starts at
page 1: every entry up to and including the `pageNumber`-th page entry (all
of them when fewer pages exist).  Entries after that point are never reached
because the loop guard `addedPageCount < pageNumber` stops the walk. -/
def sliceScanLen : List DirmEntry → Nat → Nat
  | [], _ => 0
  | e :: rest, pageNumber =>
    if 0 < pageNumber then
      if isPageEntry e then
        if pageNumber = 1 then 1 else 1 + sliceScanLen rest (pageNumber - 1)
      else 1 + sliceScanLen rest pageNumber
    else 0

/-! ### Derived measures, run helper and fixtures -/

/-- Total byte length of the currently loaded pages. -/
def loadedBytes (slots : List (Option DjVuPage)) : Int :=
  ((slots.filterMap id).map (fun p => (p.byteLength : Int))).sum

/-- Slots after the eviction loop has cleared the listed indices. -/
def clearSlots (slots : List (Option DjVuPage)) (l : List Nat) : List (Option DjVuPage) :=
  l.foldl (fun s i => s.set i none) slots

/-- Bytes the eviction loop subtracts for the listed indices (measured in the
original slot list). -/
def evictedBytes (slots : List (Option DjVuPage)) (l : List Nat) : Int :=
  (l.map (pageBytesAt slots)).sum

/-- The resident-byte bookkeeping invariant of an indirect document:
`memoryUsage` is the header size plus the bytes of the loaded pages plus the
bytes of the resident shared resources, the load-order list is
duplicate-free, every listed slot is loaded, and resource keys are unique. -/
def DocInv (headerBytes : Int) (d : DjVuDocument) : Prop :=
  d.memoryUsage = headerBytes + loadedBytes d.pages + djviBytes d.djvi ∧
  d.loadedPageNumbers.Nodup ∧
  (∀ i ∈ d.loadedPageNumbers, ((d.pages[i]?).join).isSome) ∧
  (d.djvi.map Prod.fst).Nodup

/-- A sequence of page loads that are all expected to succeed: `none` when
any call in the sequence errors. -/
def runSuccessfulLoads (fetch : String → FetchOutcome) :
    List Int → DjVuDocument → Option DjVuDocument
  | [], d => some d
  | n :: ns, d =>
    match getPage d fetch n with
    | (.ok _, d1, _) => runSuccessfulLoads fetch ns d1
    | (.error _, _, _) => none

/-- The merge inputs' internal-uniqueness hypothesis: a document with a
directory has pairwise-distinct identifiers. -/
def sideIdsNodup : ConcatSide → Prop
  | .bare _ => True
  | .withDirm _ _ ids _ => ids.Nodup

/-- A three-page indirect document fixture: 100-byte header, base location
`http://x/`, page files named `p.djvu`, component files named by their id. -/
def exIndirectDoc : DjVuDocument :=
  mkIndirectDocument 100 3 (some "http://x") 1000000 (fun _ => "p.djvu") (fun s => s)

/-- A transport fixture for the dependency-failure scenario: the page file
decodes to a page needing the three missing resources `a`, `b`, `c`; the
fetches of `a` and `c` succeed while `b` gets a non-success response. -/
def exFetch : String → FetchOutcome := fun url =>
  if url = "http://x/p.djvu" then
    .success { magicOk := true, formId := "FORMDJVU", byteLength := 40,
               pageDeps := ["a", "b", "c"], token := 7 }
  else if url = "http://x/a" then
    .success { magicOk := true, formId := "FORMDJVI", byteLength := 10,
               pageDeps := [], token := 8 }
  else if url = "http://x/b" then .unsuccessful
  else if url = "http://x/c" then
    .success { magicOk := true, formId := "FORMDJVI", byteLength := 12,
               pageDeps := [], token := 9 }
  else .networkFailure

/-- A transport fixture where every fetch of the scenario succeeds. -/
def exFetchOk : String → FetchOutcome := fun url =>
  if url = "http://x/p.djvu" then
    .success { magicOk := true, formId := "FORMDJVU", byteLength := 40,
               pageDeps := ["a"], token := 7 }
  else if url = "http://x/a" then
    .success { magicOk := true, formId := "FORMDJVI", byteLength := 10,
               pageDeps := [], token := 8 }
  else .networkFailure

/-- A loaded single-slot bundled document fixture. -/
def exBundledDoc : DjVuDocument :=
  { id := "FORMDJVM"
    hasDirm := true
    dirmIsBundled := true
    dirmPagesQuantity := 1
    dirmPageName := fun _ => ""
    dirmComponentName := fun s => s
    idToPageNumberMap := some [("pg1", 1)]
    baseUrl := none
    pages := [some { token := 3, byteLength := 50, deps := [] }]
    djvi := []
    loadedPageNumbers := []
    memoryUsage := 0
    memoryLimit := 1000000
    lastRequestedPage := none
    isOnePageDependenciesLoaded := false }

/-! ### Association-list and byte-sum lemmas -/

theorem lookupId_objSet (m : List (String × Nat)) (k : String) (v : Nat) (j : String) :
    lookupId (objSet m k v) j = if k = j then some v else lookupId m j := by
  induction m with
  | nil =>
    by_cases h : k = j <;> simp [objSet, lookupId, h]
  | cons e rest ih =>
    obtain ⟨k', v'⟩ := e
    by_cases h1 : k' = k
    · subst h1
      by_cases h2 : k' = j <;> simp [objSet, lookupId, h2]
    · by_cases h2 : k' = j
      · subst h2
        have hne : ¬ k = k' := fun h => h1 h.symm
        simp [objSet, lookupId, h1, hne]
      · simp [objSet, lookupId, h1, h2, ih]

theorem objSet_fresh (m : List (String × Nat)) (k : String) (v : Nat)
    (h : lookupId m k = none) : objSet m k v = m ++ [(k, v)] := by
  induction m with
  | nil => simp [objSet]
  | cons e rest ih =>
    obtain ⟨k', v'⟩ := e
    by_cases h1 : k' = k
    · subst h1; simp [lookupId] at h
    · simp only [lookupId, if_neg h1] at h
      simp [objSet, h1, ih h]

theorem djviBytes_append (m₁ m₂ : List (String × Nat)) :
    djviBytes (m₁ ++ m₂) = djviBytes m₁ + djviBytes m₂ := by
  simp [djviBytes]

theorem djviBytes_objSet_fresh (m : List (String × Nat)) (k : String) (v : Nat)
    (h : lookupId m k = none) :
    djviBytes (objSet m k v) = djviBytes m + v := by
  rw [objSet_fresh m k v h, djviBytes_append]
  simp [djviBytes]

theorem keys_objSet_fresh (m : List (String × Nat)) (k : String) (v : Nat)
    (h : lookupId m k = none) :
    (objSet m k v).map Prod.fst = m.map Prod.fst ++ [k] := by
  rw [objSet_fresh m k v h]; simp

theorem lookupId_none_of_not_mem_keys (m : List (String × Nat)) (k : String)
    (h : k ∉ m.map Prod.fst) : lookupId m k = none := by
  induction m with
  | nil => rfl
  | cons e rest ih =>
    obtain ⟨k', v'⟩ := e
    simp only [List.map, List.mem_cons] at h
    push_neg at h
    have h1 : k' ≠ k := fun he => h.1 he.symm
    simp only [lookupId, if_neg h1]
    exact ih h.2

theorem mem_keys_of_lookupId_isSome (m : List (String × Nat)) (k : String)
    (h : (lookupId m k).isSome) : k ∈ m.map Prod.fst := by
  by_contra hk
  rw [lookupId_none_of_not_mem_keys m k hk] at h
  simp at h

theorem lookupId_isSome_of_mem_keys (m : List (String × Nat)) (k : String)
    (h : k ∈ m.map Prod.fst) : (lookupId m k).isSome := by
  induction m with
  | nil => simp at h
  | cons e rest ih =>
    obtain ⟨k', v⟩ := e
    rw [List.map_cons] at h
    show (if k' = k then some v else lookupId rest k).isSome
    by_cases hk : k' = k
    · rw [if_pos hk]; rfl
    · rw [if_neg hk]
      apply ih
      rcases List.mem_cons.mp h with h1 | h2
      · exact absurd h1.symm hk
      · exact h2

/-! ### Loaded-page byte accounting lemmas -/

theorem loadedBytes_cons_none (l : List (Option DjVuPage)) :
    loadedBytes (none :: l) = loadedBytes l := by
  simp [loadedBytes]

theorem loadedBytes_cons_some (q : DjVuPage) (l : List (Option DjVuPage)) :
    loadedBytes (some q :: l) = (q.byteLength : Int) + loadedBytes l := by
  simp [loadedBytes]

theorem loadedBytes_set_none (slots : List (Option DjVuPage)) (i : Nat) (p : DjVuPage)
    (h : slots[i]? = some (some p)) :
    loadedBytes (slots.set i none) = loadedBytes slots - (p.byteLength : Int) := by
  induction slots generalizing i with
  | nil => simp at h
  | cons s rest ih =>
    cases i with
    | zero =>
      simp only [List.getElem?_cons_zero, Option.some.injEq] at h
      subst h
      rw [show (some p :: rest).set 0 none = none :: rest from rfl,
          loadedBytes_cons_none, loadedBytes_cons_some]
      ring
    | succ n =>
      simp only [List.getElem?_cons_succ] at h
      have hrec := ih n h
      rw [show (s :: rest).set (n + 1) none = s :: rest.set n none from rfl]
      cases s with
      | none => rw [loadedBytes_cons_none, loadedBytes_cons_none, hrec]
      | some q =>
        rw [loadedBytes_cons_some, loadedBytes_cons_some, hrec]
        ring

theorem loadedBytes_set_some (slots : List (Option DjVuPage)) (i : Nat) (p : DjVuPage)
    (h : slots[i]? = some none) :
    loadedBytes (slots.set i (some p)) = loadedBytes slots + (p.byteLength : Int) := by
  induction slots generalizing i with
  | nil => simp at h
  | cons s rest ih =>
    cases i with
    | zero =>
      simp only [List.getElem?_cons_zero, Option.some.injEq] at h
      subst h
      rw [show (none :: rest).set 0 (some p) = some p :: rest from rfl,
          loadedBytes_cons_some, loadedBytes_cons_none]
      ring
    | succ n =>
      simp only [List.getElem?_cons_succ] at h
      have hrec := ih n h
      rw [show (s :: rest).set (n + 1) (some p) = s :: rest.set n (some p) from rfl]
      cases s with
      | none => rw [loadedBytes_cons_none, loadedBytes_cons_none, hrec]
      | some q =>
        rw [loadedBytes_cons_some, loadedBytes_cons_some, hrec]
        ring

theorem pageBytesAt_set_ne (slots : List (Option DjVuPage)) (n i : Nat) (a : Option DjVuPage)
    (h : n ≠ i) : pageBytesAt (slots.set n a) i = pageBytesAt slots i := by
  unfold pageBytesAt
  rw [List.getElem?_set_ne h]

theorem evictedBytes_set_not_mem (slots : List (Option DjVuPage)) (n : Nat)
    (a : Option DjVuPage) (l : List Nat) (h : n ∉ l) :
    evictedBytes (slots.set n a) l = evictedBytes slots l := by
  unfold evictedBytes
  congr 1
  apply List.map_congr_left
  intro i hi
  exact pageBytesAt_set_ne slots n i a (fun he => h (he ▸ hi))

theorem join_isSome_elim {α : Type} (o : Option (Option α)) (h : o.join.isSome) :
    ∃ a, o = some (some a) := by
  match o with
  | none => simp [Option.join] at h
  | some none => simp [Option.join] at h
  | some (some a) => exact ⟨a, rfl⟩

theorem evictedBytes_nil (slots : List (Option DjVuPage)) :
    evictedBytes slots [] = 0 := rfl

theorem evictedBytes_cons (slots : List (Option DjVuPage)) (i : Nat) (l : List Nat) :
    evictedBytes slots (i :: l) = pageBytesAt slots i + evictedBytes slots l := by
  simp [evictedBytes]

theorem clearSlots_length (l : List Nat) (slots : List (Option DjVuPage)) :
    (clearSlots slots l).length = slots.length := by
  induction l generalizing slots with
  | nil => rfl
  | cons i rest ih =>
    show (clearSlots (slots.set i none) rest).length = slots.length
    rw [ih, List.length_set]

theorem clearSlots_getElem?_not_mem (l : List Nat) (slots : List (Option DjVuPage)) (i : Nat)
    (h : i ∉ l) : (clearSlots slots l)[i]? = slots[i]? := by
  induction l generalizing slots with
  | nil => rfl
  | cons j rest ih =>
    show (clearSlots (slots.set j none) rest)[i]? = slots[i]?
    have hji : j ≠ i := fun he => h (by rw [← he]; exact List.mem_cons_self _ _)
    rw [ih _ (fun hx => h (List.mem_cons_of_mem _ hx)), List.getElem?_set_ne hji]

theorem clearSlots_getElem?_mem (l : List Nat) (slots : List (Option DjVuPage)) (i : Nat)
    (hmem : i ∈ l) (hlt : i < slots.length) : (clearSlots slots l)[i]? = some none := by
  induction l generalizing slots with
  | nil => simp at hmem
  | cons j rest ih =>
    show (clearSlots (slots.set j none) rest)[i]? = some none
    by_cases hr : i ∈ rest
    · exact ih _ hr (by rw [List.length_set]; exact hlt)
    · have hij : i = j := by
        rcases List.mem_cons.mp hmem with h | h
        · exact h
        · exact absurd h hr
      subst hij
      rw [clearSlots_getElem?_not_mem _ _ _ hr]
      exact List.getElem?_set_self hlt

theorem loadedBytes_clearSlots (l : List Nat) (slots : List (Option DjVuPage))
    (hnd : l.Nodup) (hld : ∀ i ∈ l, ((slots[i]?).join).isSome) :
    loadedBytes (clearSlots slots l) = loadedBytes slots - evictedBytes slots l := by
  induction l generalizing slots with
  | nil =>
    show loadedBytes slots = loadedBytes slots - evictedBytes slots []
    rw [evictedBytes_nil]
    ring
  | cons i rest ih =>
    obtain ⟨p, hp⟩ := join_isSome_elim _ (hld i (List.mem_cons_self _ _))
    have hnotmem : i ∉ rest := (List.nodup_cons.mp hnd).1
    have hrec := ih (slots.set i none) (List.nodup_cons.mp hnd).2
      (fun j hj => by
        have hij : i ≠ j := fun he => hnotmem (by rw [he]; exact hj)
        rw [List.getElem?_set_ne hij]
        exact hld j (List.mem_cons_of_mem _ hj))
    show loadedBytes (clearSlots (slots.set i none) rest) = _
    rw [hrec, loadedBytes_set_none slots i p hp,
        evictedBytes_set_not_mem slots i none rest hnotmem, evictedBytes_cons]
    have hbytes : pageBytesAt slots i = (p.byteLength : Int) := by
      unfold pageBytesAt
      rw [hp]
      rfl
    rw [hbytes]
    ring

theorem evictPagesLoop_spec (limit : Int) (nums : List Nat) :
    ∀ (slots : List (Option DjVuPage)) (mem : Int),
      nums.Nodup → (∀ i ∈ nums, ((slots[i]?).join).isSome) →
      ∃ k, k ≤ nums.length ∧
        evictPagesLoop limit slots nums mem =
          (clearSlots slots (nums.take k), nums.drop k, mem - evictedBytes slots (nums.take k)) ∧
        (∀ j, j < k → limit < mem - evictedBytes slots (nums.take j)) ∧
        (k < nums.length → mem - evictedBytes slots (nums.take k) ≤ limit) := by
  induction nums with
  | nil =>
    intro slots mem _ _
    refine ⟨0, Nat.le_refl _, ?_, ?_, ?_⟩
    · show (slots, [], mem) = _
      rw [List.take_zero, List.drop_zero, evictedBytes_nil, Int.sub_zero]
      rfl
    · intro j hj; omega
    · intro h; simp at h
  | cons n rest ih =>
    intro slots mem hnd hld
    have hnotmem : n ∉ rest := (List.nodup_cons.mp hnd).1
    have hlencons : (n :: rest).length = rest.length + 1 := rfl
    by_cases hm : limit < mem
    · have hstep : evictPagesLoop limit slots (n :: rest) mem =
          evictPagesLoop limit (slots.set n none) rest (mem - pageBytesAt slots n) := by
        show (if limit < mem then
            evictPagesLoop limit (slots.set n none) rest (mem - pageBytesAt slots n)
          else (slots, n :: rest, mem)) = _
        rw [if_pos hm]
      obtain ⟨k', hk'le, heq, hmin, hstop⟩ :=
        ih (slots.set n none) (mem - pageBytesAt slots n) (List.nodup_cons.mp hnd).2
          (fun j hj => by
            have hnj : n ≠ j := fun he => hnotmem (by rw [he]; exact hj)
            rw [List.getElem?_set_ne hnj]
            exact hld j (List.mem_cons_of_mem _ hj))
      have hsub : ∀ m, evictedBytes (slots.set n none) (rest.take m) =
          evictedBytes slots (rest.take m) := fun m =>
        evictedBytes_set_not_mem slots n none (rest.take m)
          (fun hx => hnotmem (List.take_subset m rest hx))
      refine ⟨k' + 1, by omega, ?_, ?_, ?_⟩
      · rw [hstep, heq, hsub k']
        show _ = (clearSlots (slots.set n none) (rest.take k'), rest.drop k',
          mem - evictedBytes slots (n :: rest.take k'))
        rw [evictedBytes_cons]
        refine congrArg _ (congrArg _ ?_)
        ring
      · intro j hj
        cases j with
        | zero =>
          rw [List.take_zero, evictedBytes_nil]
          omega
        | succ j' =>
          have hmin' := hmin j' (by omega)
          rw [hsub j'] at hmin'
          show limit < mem - evictedBytes slots (n :: rest.take j')
          rw [evictedBytes_cons]
          omega
      · intro hlt
        have hstop' := hstop (by omega)
        rw [hsub k'] at hstop'
        show mem - evictedBytes slots (n :: rest.take k') ≤ limit
        rw [evictedBytes_cons]
        omega
    · refine ⟨0, Nat.zero_le _, ?_, ?_, ?_⟩
      · show (if limit < mem then
            evictPagesLoop limit (slots.set n none) rest (mem - pageBytesAt slots n)
          else (slots, n :: rest, mem)) = _
        rw [if_neg hm, List.take_zero, List.drop_zero, evictedBytes_nil, Int.sub_zero]
        rfl
      · intro j hj; omega
      · intro _
        rw [List.take_zero, evictedBytes_nil]
        omega

/-! ### Shared-resource map rebuild lemmas -/

theorem restrictDjvi_eq_filterMap_aux (djvi : List (String × Nat)) :
    ∀ (pres : List String) (acc : List (String × Nat)),
      (∀ id ∈ pres, lookupId acc id = none) → pres.Nodup →
      pres.foldl
        (fun m id =>
          match lookupId djvi id with
          | some len => objSet m id len
          | none => m) acc =
      acc ++ pres.filterMap (fun id => (lookupId djvi id).map (fun len => (id, len))) := by
  intro pres
  induction pres with
  | nil => intro acc _ _; simp
  | cons id rest ih =>
    intro acc hacc hnd
    have hidrest : id ∉ rest := (List.nodup_cons.mp hnd).1
    rw [List.foldl_cons, List.filterMap_cons]
    cases hdj : lookupId djvi id with
    | none =>
      simp only [hdj, Option.map_none']
      exact ih acc (fun j hj => hacc j (List.mem_cons_of_mem _ hj)) (List.nodup_cons.mp hnd).2
    | some len =>
      simp only [hdj, Option.map_some']
      have hfresh : lookupId acc id = none := hacc id (List.mem_cons_self _ _)
      have hacc' : ∀ j ∈ rest, lookupId (objSet acc id len) j = none := by
        intro j hj
        rw [lookupId_objSet]
        have hne : id ≠ j := fun he => hidrest (he ▸ hj)
        rw [if_neg hne]
        exact hacc j (List.mem_cons_of_mem _ hj)
      rw [ih (objSet acc id len) hacc' (List.nodup_cons.mp hnd).2,
          objSet_fresh acc id len hfresh, List.append_assoc]
      rfl

theorem restrictDjvi_eq_filterMap (djvi : List (String × Nat)) (pres : List String)
    (hnd : pres.Nodup) :
    restrictDjvi djvi pres =
      pres.filterMap (fun id => (lookupId djvi id).map (fun len => (id, len))) := by
  unfold restrictDjvi
  rw [restrictDjvi_eq_filterMap_aux djvi pres [] (fun _ _ => rfl) hnd]
  rfl

theorem lookupId_restrictDjvi (djvi : List (String × Nat)) (pres : List String)
    (hnd : pres.Nodup) (j : String) :
    lookupId (restrictDjvi djvi pres) j =
      if j ∈ pres then lookupId djvi j else none := by
  rw [restrictDjvi_eq_filterMap djvi pres hnd]
  clear hnd
  induction pres with
  | nil => simp [lookupId]
  | cons id rest ih =>
    rw [List.filterMap_cons]
    cases hdj : lookupId djvi id with
    | none =>
      simp only [hdj, Option.map_none']
      rw [ih]
      by_cases hj : j = id
      · subst hj
        by_cases hr : j ∈ rest
        · rw [if_pos hr, if_pos (List.mem_cons_of_mem _ hr)]
        · rw [if_neg hr, if_pos (List.mem_cons_self _ _), hdj]
      · by_cases hr : j ∈ rest
        · rw [if_pos hr, if_pos (List.mem_cons_of_mem _ hr)]
        · rw [if_neg hr, if_neg (by simp [hj, hr])]
    | some len =>
      simp only [hdj, Option.map_some']
      show (if id = j then some len else _) = _
      by_cases hj : id = j
      · subst hj
        rw [if_pos rfl, if_pos (List.mem_cons_self _ _), hdj]
      · rw [if_neg hj, ih]
        by_cases hr : j ∈ rest
        · rw [if_pos hr, if_pos (List.mem_cons_of_mem _ hr)]
        · rw [if_neg hr, if_neg (by simp [hr]; exact fun he => absurd he.symm hj)]

theorem djviBytes_restrictDjvi (djvi : List (String × Nat)) (pres : List String)
    (hnd : pres.Nodup) :
    djviBytes (restrictDjvi djvi pres) = preservedBytes djvi pres := by
  rw [restrictDjvi_eq_filterMap djvi pres hnd]
  clear hnd
  induction pres with
  | nil => rfl
  | cons id rest ih =>
    rw [List.filterMap_cons]
    unfold preservedBytes
    rw [List.map_cons, List.sum_cons]
    cases hdj : lookupId djvi id with
    | none =>
      simp only [hdj, Option.map_none']
      unfold preservedBytes at ih
      rw [ih]
      show _ = (0 : Int) + _
      rw [Int.zero_add]
    | some len =>
      simp only [hdj, Option.map_some']
      unfold djviBytes
      rw [List.map_cons, List.sum_cons]
      unfold djviBytes preservedBytes at ih
      rw [ih]
      rfl

theorem keys_filterMap_lookup (djvi : List (String × Nat)) (pres : List String) :
    (pres.filterMap (fun id => (lookupId djvi id).map (fun len => (id, len)))).map Prod.fst =
      pres.filter (fun id => (lookupId djvi id).isSome) := by
  induction pres with
  | nil => rfl
  | cons id rest ih =>
    rw [List.filterMap_cons, List.filter_cons]
    cases hdj : lookupId djvi id with
    | none => simpa [hdj] using ih
    | some len => simpa [hdj] using ih

theorem keys_restrictDjvi_nodup (djvi : List (String × Nat)) (pres : List String)
    (hnd : pres.Nodup) :
    ((restrictDjvi djvi pres).map Prod.fst).Nodup := by
  rw [restrictDjvi_eq_filterMap djvi pres hnd, keys_filterMap_lookup]
  exact hnd.filter _

theorem djviBytes_filter_split (p : (String × Nat) → Bool) (m : List (String × Nat)) :
    djviBytes m = djviBytes (m.filter p) + djviBytes (m.filter (fun e => !(p e))) := by
  induction m with
  | nil => rfl
  | cons e rest ih =>
    rw [List.filter_cons, List.filter_cons]
    cases hp : p e with
    | true =>
      rw [if_pos rfl, if_neg (by simp)]
      unfold djviBytes at ih ⊢
      rw [List.map_cons, List.sum_cons, List.map_cons, List.sum_cons, ih]
      ring
    | false =>
      rw [if_neg (by simp), if_pos (show (!false) = true from rfl)]
      unfold djviBytes at ih ⊢
      rw [List.map_cons, List.sum_cons, List.map_cons, List.sum_cons, ih]
      ring

theorem sum_map_ite_of_apply_zero (l : List String) (k : String) (v : Int) (f : String → Int)
    (hnd : l.Nodup) (hfk : f k = 0) :
    (l.map (fun id => if k = id then v else f id)).sum =
      (if k ∈ l then v else 0) + (l.map f).sum := by
  induction l with
  | nil => simp
  | cons a rest ih =>
    have ihr := ih (List.nodup_cons.mp hnd).2
    rw [List.map_cons, List.sum_cons, List.map_cons, List.sum_cons]
    by_cases hk : k = a
    · subst hk
      have hnr : k ∉ rest := (List.nodup_cons.mp hnd).1
      have hmap : rest.map (fun id => if k = id then v else f id) = rest.map f := by
        apply List.map_congr_left
        intro x hx
        have hne : k ≠ x := fun he => hnr (he ▸ hx)
        rw [if_neg hne]
      rw [if_pos rfl, hmap, if_pos (List.mem_cons_self _ _), hfk]
      ring
    · rw [if_neg hk, ihr]
      by_cases hr : k ∈ rest
      · rw [if_pos hr, if_pos (List.mem_cons_of_mem _ hr)]
        ring
      · rw [if_neg hr, if_neg (by simp [hk, hr])]
        ring

theorem preservedBytes_eq_filter (m : List (String × Nat)) (pres : List String)
    (hknd : (m.map Prod.fst).Nodup) (hpnd : pres.Nodup) :
    preservedBytes m pres = djviBytes (m.filter (fun e => decide (e.1 ∈ pres))) := by
  induction m with
  | nil =>
    unfold preservedBytes
    have hmap : pres.map (fun id => ((lookupId [] id).getD 0 : Int)) =
        pres.map (fun _ => (0 : Int)) := by
      apply List.map_congr_left
      intro x _
      rfl
    rw [hmap]
    simp [djviBytes]
  | cons e rest ih =>
    obtain ⟨k, v⟩ := e
    rw [List.map_cons] at hknd
    have hknr : k ∉ rest.map Prod.fst := (List.nodup_cons.mp hknd).1
    have ihr := ih (List.nodup_cons.mp hknd).2
    have hstep : preservedBytes ((k, v) :: rest) pres =
        (if k ∈ pres then (v : Int) else 0) + preservedBytes rest pres := by
      unfold preservedBytes
      have hmap : pres.map (fun id => ((lookupId ((k, v) :: rest) id).getD 0 : Int)) =
          pres.map (fun id => if k = id then (v : Int) else ((lookupId rest id).getD 0 : Int)) := by
        apply List.map_congr_left
        intro x _
        show ((if k = x then some v else lookupId rest x).getD 0 : Int) = _
        by_cases hkx : k = x
        · rw [if_pos hkx, if_pos hkx]; rfl
        · rw [if_neg hkx, if_neg hkx]
      rw [hmap]
      exact sum_map_ite_of_apply_zero pres k v _ hpnd
        (by rw [lookupId_none_of_not_mem_keys rest k hknr]; rfl)
    rw [hstep, ihr, List.filter_cons]
    by_cases hkp : k ∈ pres
    · rw [if_pos hkp, if_pos (show decide ((k, v).1 ∈ pres) = true from decide_eq_true hkp)]
      unfold djviBytes
      rw [List.map_cons, List.sum_cons]
    · rw [if_neg hkp, if_neg (by simp [hkp])]
      ring

/-! ### Memory-governor characterisation -/

theorem evictPagesLoop_length (limit : Int) (nums : List Nat) :
    ∀ slots mem, ((evictPagesLoop limit slots nums mem).1).length = slots.length := by
  induction nums with
  | nil => intro slots mem; rfl
  | cons n rest ih =>
    intro slots mem
    show ((if limit < mem then
        evictPagesLoop limit (slots.set n none) rest (mem - pageBytesAt slots n)
      else (slots, n :: rest, mem)).1).length = _
    by_cases hm : limit < mem
    · rw [if_pos hm, ih, List.length_set]
    · rw [if_neg hm]

theorem releaseMemory_frame (d : DjVuDocument) (pres : Option (List String)) :
    (releaseMemoryIfRequired d pres).1.id = d.id ∧
    (releaseMemoryIfRequired d pres).1.hasDirm = d.hasDirm ∧
    (releaseMemoryIfRequired d pres).1.dirmIsBundled = d.dirmIsBundled ∧
    (releaseMemoryIfRequired d pres).1.dirmPagesQuantity = d.dirmPagesQuantity ∧
    (releaseMemoryIfRequired d pres).1.dirmPageName = d.dirmPageName ∧
    (releaseMemoryIfRequired d pres).1.dirmComponentName = d.dirmComponentName ∧
    (releaseMemoryIfRequired d pres).1.idToPageNumberMap = d.idToPageNumberMap ∧
    (releaseMemoryIfRequired d pres).1.baseUrl = d.baseUrl ∧
    (releaseMemoryIfRequired d pres).1.memoryLimit = d.memoryLimit ∧
    (releaseMemoryIfRequired d pres).1.isOnePageDependenciesLoaded
      = d.isOnePageDependenciesLoaded := by
  unfold releaseMemoryIfRequired
  by_cases h1 : d.memoryUsage ≤ d.memoryLimit
  · rw [if_pos h1]
    exact ⟨rfl, rfl, rfl, rfl, rfl, rfl, rfl, rfl, rfl, rfl⟩
  · rw [if_neg h1]
    by_cases h2 : d.memoryLimit <
        (evictPagesLoop d.memoryLimit d.pages d.loadedPageNumbers d.memoryUsage).2.2 ∧
        (evictPagesLoop d.memoryLimit d.pages d.loadedPageNumbers d.memoryUsage).2.1 = []
    · rw [if_pos h2]
      exact ⟨rfl, rfl, rfl, rfl, rfl, rfl, rfl, rfl, rfl, rfl⟩
    · rw [if_neg h2]
      exact ⟨rfl, rfl, rfl, rfl, rfl, rfl, rfl, rfl, rfl, rfl⟩

theorem releaseMemory_pages_length (d : DjVuDocument) (pres : Option (List String)) :
    (releaseMemoryIfRequired d pres).1.pages.length = d.pages.length := by
  unfold releaseMemoryIfRequired
  by_cases h1 : d.memoryUsage ≤ d.memoryLimit
  · rw [if_pos h1]
  · rw [if_neg h1]
    by_cases h2 : d.memoryLimit <
        (evictPagesLoop d.memoryLimit d.pages d.loadedPageNumbers d.memoryUsage).2.2 ∧
        (evictPagesLoop d.memoryLimit d.pages d.loadedPageNumbers d.memoryUsage).2.1 = []
    · rw [if_pos h2]
      exact evictPagesLoop_length d.memoryLimit d.loadedPageNumbers d.pages d.memoryUsage
    · rw [if_neg h2]
      exact evictPagesLoop_length d.memoryLimit d.loadedPageNumbers d.pages d.memoryUsage

theorem releaseMemory_spec (d : DjVuDocument) (pres : List String)
    (hB : d.loadedPageNumbers.Nodup)
    (hC : ∀ i ∈ d.loadedPageNumbers, ((d.pages[i]?).join).isSome)
    (hover : d.memoryLimit < d.memoryUsage) :
    ∃ k, k ≤ d.loadedPageNumbers.length ∧
      (releaseMemoryIfRequired d (some pres)).1.loadedPageNumbers =
        d.loadedPageNumbers.drop k ∧
      (releaseMemoryIfRequired d (some pres)).1.pages =
        clearSlots d.pages (d.loadedPageNumbers.take k) ∧
      (∀ j, j < k →
        d.memoryLimit < d.memoryUsage - evictedBytes d.pages (d.loadedPageNumbers.take j)) ∧
      (k < d.loadedPageNumbers.length →
        d.memoryUsage - evictedBytes d.pages (d.loadedPageNumbers.take k) ≤ d.memoryLimit) ∧
      ((d.memoryLimit < d.memoryUsage - evictedBytes d.pages (d.loadedPageNumbers.take k)
          ∧ d.loadedPageNumbers.drop k = []) →
        (releaseMemoryIfRequired d (some pres)).1.djvi = restrictDjvi d.djvi pres ∧
        (releaseMemoryIfRequired d (some pres)).1.memoryUsage =
          d.memoryUsage - evictedBytes d.pages (d.loadedPageNumbers.take k)
            + preservedBytes d.djvi pres - djviBytes d.djvi ∧
        (releaseMemoryIfRequired d (some pres)).1.lastRequestedPage = none ∧
        (releaseMemoryIfRequired d (some pres)).2 =
          (match d.lastRequestedPage with
            | some p => [Effect.reset p.token]
            | none => [])) ∧
      (¬(d.memoryLimit < d.memoryUsage - evictedBytes d.pages (d.loadedPageNumbers.take k)
          ∧ d.loadedPageNumbers.drop k = []) →
        (releaseMemoryIfRequired d (some pres)).1.djvi = d.djvi ∧
        (releaseMemoryIfRequired d (some pres)).1.memoryUsage =
          d.memoryUsage - evictedBytes d.pages (d.loadedPageNumbers.take k) ∧
        (releaseMemoryIfRequired d (some pres)).1.lastRequestedPage = d.lastRequestedPage ∧
        (releaseMemoryIfRequired d (some pres)).2 = []) := by
  obtain ⟨k, hk, heq, hmin, hstop⟩ :=
    evictPagesLoop_spec d.memoryLimit d.loadedPageNumbers d.pages d.memoryUsage hB hC
  by_cases hcond : d.memoryLimit <
      d.memoryUsage - evictedBytes d.pages (d.loadedPageNumbers.take k)
      ∧ d.loadedPageNumbers.drop k = []
  · have hrel : releaseMemoryIfRequired d (some pres) =
        ({ d with
            pages := clearSlots d.pages (d.loadedPageNumbers.take k),
            loadedPageNumbers := d.loadedPageNumbers.drop k,
            memoryUsage :=
              d.memoryUsage - evictedBytes d.pages (d.loadedPageNumbers.take k)
                + preservedBytes d.djvi pres - djviBytes d.djvi,
            djvi := restrictDjvi d.djvi pres,
            lastRequestedPage := none },
          match d.lastRequestedPage with
          | some p => [Effect.reset p.token]
          | none => []) := by
      unfold releaseMemoryIfRequired
      rw [if_neg (not_le.mpr hover), heq]
      dsimp only
      rw [if_pos hcond]
      rfl
    refine ⟨k, hk, ?_, ?_, hmin, hstop, ?_, ?_⟩
    · rw [hrel]
    · rw [hrel]
    · intro _
      rw [hrel]
      exact ⟨rfl, rfl, rfl, rfl⟩
    · intro hc
      exact absurd hcond hc
  · have hrel : releaseMemoryIfRequired d (some pres) =
        ({ d with
            pages := clearSlots d.pages (d.loadedPageNumbers.take k),
            loadedPageNumbers := d.loadedPageNumbers.drop k,
            memoryUsage :=
              d.memoryUsage - evictedBytes d.pages (d.loadedPageNumbers.take k) },
          []) := by
      unfold releaseMemoryIfRequired
      rw [if_neg (not_le.mpr hover), heq]
      dsimp only
      rw [if_neg hcond]
    refine ⟨k, hk, ?_, ?_, hmin, hstop, ?_, ?_⟩
    · rw [hrel]
    · rw [hrel]
    · intro hc
      exact absurd hc hcond
    · intro _
      rw [hrel]
      exact ⟨rfl, rfl, rfl, rfl⟩

theorem releaseMemory_docInv (X : Int) (d : DjVuDocument) (pres : List String)
    (hInv : DocInv X d) (hpn : pres.Nodup) :
    DocInv X (releaseMemoryIfRequired d (some pres)).1 := by
  obtain ⟨hA, hB, hC, hK⟩ := hInv
  by_cases hle : d.memoryUsage ≤ d.memoryLimit
  · have hrel : releaseMemoryIfRequired d (some pres) = (d, []) := by
      unfold releaseMemoryIfRequired
      rw [if_pos hle]
    rw [hrel]
    exact ⟨hA, hB, hC, hK⟩
  · have hover : d.memoryLimit < d.memoryUsage := not_le.mp hle
    obtain ⟨k, hk, h1, h2, hmin, hstop, hdict, hnodict⟩ :=
      releaseMemory_spec d pres hB hC hover
    have htakend : (d.loadedPageNumbers.take k).Nodup :=
      hB.sublist (List.take_sublist _ _)
    have htakeld : ∀ i ∈ d.loadedPageNumbers.take k, ((d.pages[i]?).join).isSome :=
      fun i hi => hC i (List.take_subset _ _ hi)
    have hloaded := loadedBytes_clearSlots (d.loadedPageNumbers.take k) d.pages htakend htakeld
    have hdisj : ∀ i ∈ d.loadedPageNumbers.drop k, i ∉ d.loadedPageNumbers.take k := by
      intro i hdrop htake
      have hnd2 : (d.loadedPageNumbers.take k ++ d.loadedPageNumbers.drop k).Nodup := by
        rw [List.take_append_drop]
        exact hB
      exact (List.disjoint_of_nodup_append hnd2) htake hdrop
    by_cases hcond : d.memoryLimit <
        d.memoryUsage - evictedBytes d.pages (d.loadedPageNumbers.take k)
        ∧ d.loadedPageNumbers.drop k = []
    · obtain ⟨hdj, hmem, hlast, heff⟩ := hdict hcond
      refine ⟨?_, ?_, ?_, ?_⟩
      · rw [hmem, h2, hdj, djviBytes_restrictDjvi _ _ hpn, hloaded]
        omega
      · rw [h1, hcond.2]
        exact List.nodup_nil
      · intro i hi
        rw [h1, hcond.2] at hi
        simp at hi
      · rw [hdj]
        exact keys_restrictDjvi_nodup _ _ hpn
    · obtain ⟨hdj, hmem, hlast, heff⟩ := hnodict hcond
      refine ⟨?_, ?_, ?_, ?_⟩
      · rw [hmem, h2, hdj, hloaded]
        omega
      · rw [h1]
        exact hB.sublist (List.drop_sublist _ _)
      · intro i hi
        rw [h1] at hi
        rw [h2, clearSlots_getElem?_not_mem _ _ _ (hdisj i hi)]
        exact hC i (List.drop_subset _ _ hi)
      · rw [hdj]
        exact hK

theorem releaseMemory_keeps_preserved (d : DjVuDocument) (pres : List String)
    (hpn : pres.Nodup)
    (hB : d.loadedPageNumbers.Nodup)
    (hC : ∀ i ∈ d.loadedPageNumbers, ((d.pages[i]?).join).isSome)
    (id : String) (hid : id ∈ pres) :
    lookupId (releaseMemoryIfRequired d (some pres)).1.djvi id = lookupId d.djvi id := by
  by_cases hle : d.memoryUsage ≤ d.memoryLimit
  · have hrel : releaseMemoryIfRequired d (some pres) = (d, []) := by
      unfold releaseMemoryIfRequired
      rw [if_pos hle]
    rw [hrel]
  · obtain ⟨k, hk, h1, h2, hmin, hstop, hdict, hnodict⟩ :=
      releaseMemory_spec d pres hB hC (not_le.mp hle)
    by_cases hcond : d.memoryLimit <
        d.memoryUsage - evictedBytes d.pages (d.loadedPageNumbers.take k)
        ∧ d.loadedPageNumbers.drop k = []
    · rw [(hdict hcond).1, lookupId_restrictDjvi _ _ hpn, if_pos hid]
    · rw [(hnodict hcond).1]

/-! ### Dependency-batch lemmas -/

theorem loadDepsLoop_frame (fetch : String → FetchOutcome) (pn : Option Int)
    (ids : List String) : ∀ d : DjVuDocument,
      (loadDepsLoop fetch pn ids d).2.1.pages = d.pages ∧
      (loadDepsLoop fetch pn ids d).2.1.loadedPageNumbers = d.loadedPageNumbers ∧
      (loadDepsLoop fetch pn ids d).2.1.lastRequestedPage = d.lastRequestedPage ∧
      (loadDepsLoop fetch pn ids d).2.1.memoryLimit = d.memoryLimit ∧
      (loadDepsLoop fetch pn ids d).2.1.baseUrl = d.baseUrl ∧
      (loadDepsLoop fetch pn ids d).2.1.id = d.id ∧
      (loadDepsLoop fetch pn ids d).2.1.hasDirm = d.hasDirm ∧
      (loadDepsLoop fetch pn ids d).2.1.dirmIsBundled = d.dirmIsBundled ∧
      (loadDepsLoop fetch pn ids d).2.1.dirmPagesQuantity = d.dirmPagesQuantity ∧
      (loadDepsLoop fetch pn ids d).2.1.dirmPageName = d.dirmPageName ∧
      (loadDepsLoop fetch pn ids d).2.1.dirmComponentName = d.dirmComponentName ∧
      (loadDepsLoop fetch pn ids d).2.1.idToPageNumberMap = d.idToPageNumberMap ∧
      (loadDepsLoop fetch pn ids d).2.1.isOnePageDependenciesLoaded
        = d.isOnePageDependenciesLoaded := by
  induction ids with
  | nil =>
    intro d
    exact ⟨rfl, rfl, rfl, rfl, rfl, rfl, rfl, rfl, rfl, rfl, rfl, rfl, rfl⟩
  | cons id rest ih =>
    intro d
    cases hf : fetch (depUrl d id) with
    | networkFailure =>
      have ih' := ih d
      simp only [loadDepsLoop, hf]
      exact ih'
    | unsuccessful =>
      have ih' := ih d
      simp only [loadDepsLoop, hf]
      exact ih'
    | success blob =>
      by_cases hmagic : blob.magicOk = false
      · have ih' := ih d
        simp only [loadDepsLoop, hf, if_pos hmagic]
        exact ih'
      · by_cases hform : blob.formId ≠ "FORMDJVI"
        · have ih' := ih d
          simp only [loadDepsLoop, hf, if_neg hmagic, if_pos hform]
          exact ih'
        · have ih' := ih ({ d with djvi := objSet d.djvi id blob.byteLength, memoryUsage := d.memoryUsage + (blob.byteLength : Int) } : DjVuDocument)
          simp only [loadDepsLoop, hf, if_neg hmagic, if_neg hform]
          exact ih'

theorem loadDepsLoop_djvi_mono (fetch : String → FetchOutcome) (pn : Option Int)
    (ids : List String) : ∀ (d : DjVuDocument) (j : String),
      (lookupId d.djvi j).isSome →
      (lookupId (loadDepsLoop fetch pn ids d).2.1.djvi j).isSome := by
  induction ids with
  | nil => intro d j h; exact h
  | cons id rest ih =>
    intro d j h
    cases hf : fetch (depUrl d id) with
    | networkFailure =>
      simp only [loadDepsLoop, hf]
      exact ih d j h
    | unsuccessful =>
      simp only [loadDepsLoop, hf]
      exact ih d j h
    | success blob =>
      by_cases hmagic : blob.magicOk = false
      · simp only [loadDepsLoop, hf, if_pos hmagic]
        exact ih d j h
      · by_cases hform : blob.formId ≠ "FORMDJVI"
        · simp only [loadDepsLoop, hf, if_neg hmagic, if_pos hform]
          exact ih d j h
        · simp only [loadDepsLoop, hf, if_neg hmagic, if_neg hform]
          apply ih
          show (lookupId (objSet d.djvi id blob.byteLength) j).isSome
          rw [lookupId_objSet]
          by_cases hij : id = j
          · rw [if_pos hij]; rfl
          · rw [if_neg hij]; exact h

theorem loadDepsLoop_mem_mono (fetch : String → FetchOutcome) (pn : Option Int)
    (ids : List String) : ∀ d : DjVuDocument,
      d.memoryUsage ≤ (loadDepsLoop fetch pn ids d).2.1.memoryUsage := by
  induction ids with
  | nil => intro d; exact le_refl _
  | cons id rest ih =>
    intro d
    cases hf : fetch (depUrl d id) with
    | networkFailure =>
      simp only [loadDepsLoop, hf]
      exact ih d
    | unsuccessful =>
      simp only [loadDepsLoop, hf]
      exact ih d
    | success blob =>
      by_cases hmagic : blob.magicOk = false
      · simp only [loadDepsLoop, hf, if_pos hmagic]
        exact ih d
      · by_cases hform : blob.formId ≠ "FORMDJVI"
        · simp only [loadDepsLoop, hf, if_neg hmagic, if_pos hform]
          exact ih d
        · simp only [loadDepsLoop, hf, if_neg hmagic, if_neg hform]
          refine le_trans (show d.memoryUsage ≤ d.memoryUsage + (blob.byteLength : Int) by omega) (ih _)

theorem loadDepsLoop_success_installs (fetch : String → FetchOutcome) (pn : Option Int)
    (ids : List String) : ∀ d : DjVuDocument,
      (loadDepsLoop fetch pn ids d).1 = none →
      ∀ id ∈ ids, (lookupId (loadDepsLoop fetch pn ids d).2.1.djvi id).isSome := by
  induction ids with
  | nil => intro d _ id hid; simp at hid
  | cons x rest ih =>
    intro d hok id hid
    cases hf : fetch (depUrl d x) with
    | networkFailure =>
      simp only [loadDepsLoop, hf] at hok
      exact absurd hok (by simp [Option.orElse])
    | unsuccessful =>
      simp only [loadDepsLoop, hf] at hok
      exact absurd hok (by simp [Option.orElse])
    | success blob =>
      by_cases hmagic : blob.magicOk = false
      · simp only [loadDepsLoop, hf, if_pos hmagic] at hok
        exact absurd hok (by simp [Option.orElse])
      · by_cases hform : blob.formId ≠ "FORMDJVI"
        · simp only [loadDepsLoop, hf, if_neg hmagic, if_pos hform] at hok
          exact absurd hok (by simp [Option.orElse])
        · simp only [loadDepsLoop, hf, if_neg hmagic, if_neg hform] at hok ⊢
          rcases List.mem_cons.mp hid with hx | hr
          · subst hx
            apply loadDepsLoop_djvi_mono
            show (lookupId (objSet d.djvi id blob.byteLength) id).isSome
            rw [lookupId_objSet, if_pos rfl]
            rfl
          · exact ih _ hok id hr

theorem loadDepsLoop_accounting (fetch : String → FetchOutcome) (pn : Option Int)
    (ids : List String) : ∀ d : DjVuDocument,
      (∀ id ∈ ids, lookupId d.djvi id = none) → ids.Nodup →
      ((loadDepsLoop fetch pn ids d).2.1.memoryUsage
          - djviBytes (loadDepsLoop fetch pn ids d).2.1.djvi
        = d.memoryUsage - djviBytes d.djvi) ∧
      ((d.djvi.map Prod.fst).Nodup →
        (((loadDepsLoop fetch pn ids d).2.1.djvi).map Prod.fst).Nodup) := by
  induction ids with
  | nil => intro d _ _; exact ⟨rfl, fun h => h⟩
  | cons id rest ih =>
    intro d hfresh hnd
    have hidrest : id ∉ rest := (List.nodup_cons.mp hnd).1
    cases hf : fetch (depUrl d id) with
    | networkFailure =>
      simp only [loadDepsLoop, hf]
      exact ih d (fun j hj => hfresh j (List.mem_cons_of_mem _ hj)) (List.nodup_cons.mp hnd).2
    | unsuccessful =>
      simp only [loadDepsLoop, hf]
      exact ih d (fun j hj => hfresh j (List.mem_cons_of_mem _ hj)) (List.nodup_cons.mp hnd).2
    | success blob =>
      by_cases hmagic : blob.magicOk = false
      · simp only [loadDepsLoop, hf, if_pos hmagic]
        exact ih d (fun j hj => hfresh j (List.mem_cons_of_mem _ hj)) (List.nodup_cons.mp hnd).2
      · by_cases hform : blob.formId ≠ "FORMDJVI"
        · simp only [loadDepsLoop, hf, if_neg hmagic, if_pos hform]
          exact ih d (fun j hj => hfresh j (List.mem_cons_of_mem _ hj)) (List.nodup_cons.mp hnd).2
        · simp only [loadDepsLoop, hf, if_neg hmagic, if_neg hform]
          have hfreshid : lookupId d.djvi id = none := hfresh id (List.mem_cons_self _ _)
          have hfresh' : ∀ j ∈ rest, lookupId (objSet d.djvi id blob.byteLength) j = none := by
            intro j hj
            rw [lookupId_objSet]
            have hne : id ≠ j := fun he => hidrest (he ▸ hj)
            rw [if_neg hne]
            exact hfresh j (List.mem_cons_of_mem _ hj)
          have ih' := ih ({ d with djvi := objSet d.djvi id blob.byteLength, memoryUsage := d.memoryUsage + (blob.byteLength : Int) } : DjVuDocument) hfresh' (List.nodup_cons.mp hnd).2
          refine ⟨?_, ?_⟩
          · rw [ih'.1]
            show d.memoryUsage + (blob.byteLength : Int)
              - djviBytes (objSet d.djvi id blob.byteLength) = _
            rw [djviBytes_objSet_fresh d.djvi id blob.byteLength hfreshid]
            omega
          · intro hknd
            apply ih'.2
            show ((objSet d.djvi id blob.byteLength).map Prod.fst).Nodup
            rw [keys_objSet_fresh d.djvi id blob.byteLength hfreshid]
            rw [List.nodup_append]
            refine ⟨hknd, List.nodup_singleton _, ?_⟩
            intro a ha hb
            rw [List.mem_singleton] at hb
            subst hb
            have hsome := lookupId_isSome_of_mem_keys d.djvi a ha
            rw [hfreshid] at hsome
            simp at hsome

theorem loadDependencies_frame (d : DjVuDocument) (fetch : String → FetchOutcome)
    (deps : List String) (pn : Option Int) :
    (loadDependencies d fetch deps pn).2.1.pages = d.pages ∧
    (loadDependencies d fetch deps pn).2.1.loadedPageNumbers = d.loadedPageNumbers ∧
    (loadDependencies d fetch deps pn).2.1.lastRequestedPage = d.lastRequestedPage ∧
    (loadDependencies d fetch deps pn).2.1.memoryLimit = d.memoryLimit ∧
    (loadDependencies d fetch deps pn).2.1.baseUrl = d.baseUrl ∧
    (loadDependencies d fetch deps pn).2.1.id = d.id ∧
    (loadDependencies d fetch deps pn).2.1.hasDirm = d.hasDirm ∧
    (loadDependencies d fetch deps pn).2.1.dirmIsBundled = d.dirmIsBundled ∧
    (loadDependencies d fetch deps pn).2.1.dirmPagesQuantity = d.dirmPagesQuantity ∧
    (loadDependencies d fetch deps pn).2.1.dirmPageName = d.dirmPageName ∧
    (loadDependencies d fetch deps pn).2.1.dirmComponentName = d.dirmComponentName ∧
    (loadDependencies d fetch deps pn).2.1.idToPageNumberMap = d.idToPageNumberMap ∧
    (loadDependencies d fetch deps pn).2.1.isOnePageDependenciesLoaded
      = d.isOnePageDependenciesLoaded := by
  unfold loadDependencies
  by_cases he : (deps.filter (fun id => (lookupId d.djvi id).isNone)).isEmpty
  · rw [if_pos he]
    exact ⟨rfl, rfl, rfl, rfl, rfl, rfl, rfl, rfl, rfl, rfl, rfl, rfl, rfl⟩
  · rw [if_neg he]
    exact loadDepsLoop_frame fetch pn _ d

theorem loadDependencies_success_all_present (d : DjVuDocument)
    (fetch : String → FetchOutcome) (deps : List String) (pn : Option Int)
    (hok : (loadDependencies d fetch deps pn).1 = none) :
    ∀ id ∈ deps, (lookupId (loadDependencies d fetch deps pn).2.1.djvi id).isSome := by
  intro id hid
  unfold loadDependencies at hok ⊢
  by_cases he : (deps.filter (fun id => (lookupId d.djvi id).isNone)).isEmpty
  · rw [if_pos he]
    show (lookupId d.djvi id).isSome
    rw [List.isEmpty_iff] at he
    by_cases hsome : (lookupId d.djvi id).isSome
    · exact hsome
    · exfalso
      have hmemf : id ∈ deps.filter (fun id => (lookupId d.djvi id).isNone) := by
        rw [List.mem_filter]
        refine ⟨hid, ?_⟩
        rw [Option.isNone_iff_eq_none]
        cases hcase : lookupId d.djvi id with
        | none => rfl
        | some v => rw [hcase] at hsome; simp at hsome
      rw [he] at hmemf
      simp at hmemf
  · rw [if_neg he] at hok ⊢
    by_cases hsome : (lookupId d.djvi id).isSome
    · exact loadDepsLoop_djvi_mono fetch pn _ d id hsome
    · have hmemf : id ∈ deps.filter (fun id => (lookupId d.djvi id).isNone) := by
        rw [List.mem_filter]
        refine ⟨hid, ?_⟩
        cases hcase : lookupId d.djvi id with
        | none => rfl
        | some v => rw [hcase] at hsome; simp at hsome
      exact loadDepsLoop_success_installs fetch pn _ d hok id hmemf

theorem loadDependencies_docInv (X : Int) (d : DjVuDocument)
    (fetch : String → FetchOutcome) (deps : List String) (pn : Option Int)
    (hInv : DocInv X d) (hnd : deps.Nodup) :
    DocInv X (loadDependencies d fetch deps pn).2.1 := by
  obtain ⟨hA, hB, hC, hK⟩ := hInv
  unfold loadDependencies
  by_cases he : (deps.filter (fun id => (lookupId d.djvi id).isNone)).isEmpty
  · rw [if_pos he]
    exact ⟨hA, hB, hC, hK⟩
  · rw [if_neg he]
    have hfresh : ∀ id ∈ deps.filter (fun id => (lookupId d.djvi id).isNone),
        lookupId d.djvi id = none := by
      intro id hidm
      have := (List.mem_filter.mp hidm).2
      rwa [Option.isNone_iff_eq_none] at this
    have hndf : (deps.filter (fun id => (lookupId d.djvi id).isNone)).Nodup :=
      hnd.filter _
    obtain ⟨hacc, hkeys⟩ := loadDepsLoop_accounting fetch pn _ d hfresh hndf
    obtain ⟨hp, hl, _, _, _, _, _, _, _, _, _, _, _⟩ := loadDepsLoop_frame fetch pn
      (deps.filter (fun id => (lookupId d.djvi id).isNone)) d
    refine ⟨?_, ?_, ?_, ?_⟩
    · rw [hp]
      omega
    · rw [hl]; exact hB
    · intro i hi
      rw [hl] at hi
      rw [hp]
      exact hC i hi
    · exact hkeys hK

theorem loadDepsLoop_installs_own_success (fetch : String → FetchOutcome) (pn : Option Int)
    (ids : List String) : ∀ (d : DjVuDocument) (id : String), id ∈ ids →
      ∀ b : Blob, fetch (depUrl d id) = .success b → b.magicOk = true →
      b.formId = "FORMDJVI" →
      (lookupId (loadDepsLoop fetch pn ids d).2.1.djvi id).isSome := by
  induction ids with
  | nil => intro d id hid; simp at hid
  | cons x rest ih =>
    intro d id hid b hfb hmb hfo
    rcases List.mem_cons.mp hid with hx | hr
    · subst hx
      simp only [loadDepsLoop, hfb]
      rw [if_neg (by simp [hmb]), if_neg (by simp [hfo])]
      apply loadDepsLoop_djvi_mono
      show (lookupId (objSet d.djvi id b.byteLength) id).isSome
      rw [lookupId_objSet, if_pos rfl]
      rfl
    · cases hf : fetch (depUrl d x) with
      | networkFailure =>
        simp only [loadDepsLoop, hf]
        exact ih d id hr b hfb hmb hfo
      | unsuccessful =>
        simp only [loadDepsLoop, hf]
        exact ih d id hr b hfb hmb hfo
      | success blob =>
        by_cases hm2 : blob.magicOk = false
        · simp only [loadDepsLoop, hf, if_pos hm2]
          exact ih d id hr b hfb hmb hfo
        · by_cases hfo2 : blob.formId ≠ "FORMDJVI"
          · simp only [loadDepsLoop, hf, if_neg hm2, if_pos hfo2]
            exact ih d id hr b hfb hmb hfo
          · simp only [loadDepsLoop, hf, if_neg hm2, if_neg hfo2]
            exact ih ({ d with djvi := objSet d.djvi x blob.byteLength, memoryUsage := d.memoryUsage + (blob.byteLength : Int) } : DjVuDocument) id hr b hfb hmb hfo

theorem loadDependencies_installs_own_success (d : DjVuDocument)
    (fetch : String → FetchOutcome) (deps : List String) (pn : Option Int) :
    ∀ id ∈ deps, ∀ b : Blob, fetch (depUrl d id) = .success b → b.magicOk = true →
      b.formId = "FORMDJVI" →
      (lookupId (loadDependencies d fetch deps pn).2.1.djvi id).isSome := by
  intro id hid b hfb hmb hfo
  unfold loadDependencies
  by_cases he : (deps.filter (fun id => (lookupId d.djvi id).isNone)).isEmpty
  · rw [if_pos he]
    show (lookupId d.djvi id).isSome
    rw [List.isEmpty_iff] at he
    by_cases hsome : (lookupId d.djvi id).isSome
    · exact hsome
    · exfalso
      have hmemf : id ∈ deps.filter (fun id => (lookupId d.djvi id).isNone) := by
        rw [List.mem_filter]
        refine ⟨hid, ?_⟩
        cases hcase : lookupId d.djvi id with
        | none => rfl
        | some v => rw [hcase] at hsome; simp at hsome
      rw [he] at hmemf
      simp at hmemf
  · rw [if_neg he]
    by_cases hsome : (lookupId d.djvi id).isSome
    · exact loadDepsLoop_djvi_mono fetch pn _ d id hsome
    · have hmemf : id ∈ deps.filter (fun id => (lookupId d.djvi id).isNone) := by
        rw [List.mem_filter]
        refine ⟨hid, ?_⟩
        cases hcase : lookupId d.djvi id with
        | none => rfl
        | some v => rw [hcase] at hsome; simp at hsome
      exact loadDepsLoop_installs_own_success fetch pn _ d id hmemf b hfb hmb hfo

theorem loadDependencies_mem_mono (d : DjVuDocument) (fetch : String → FetchOutcome)
    (deps : List String) (pn : Option Int) :
    d.memoryUsage ≤ (loadDependencies d fetch deps pn).2.1.memoryUsage := by
  unfold loadDependencies
  by_cases he : (deps.filter (fun id => (lookupId d.djvi id).isNone)).isEmpty
  · rw [if_pos he]
  · rw [if_neg he]
    exact loadDepsLoop_mem_mono fetch pn _ d

/-! ### Claim theorems -/

theorem slotAt_eq_none_of_out_of_range (d : DjVuDocument) (number : Int)
    (h : number < 1 ∨ (d.pages.length : Int) < number) : slotAt d number = none := by
  unfold slotAt
  rw [if_neg (by omega)]

/-- C7: for every document, `getPage(n)` with `n` outside `[1, pageCount]`
fails with `NoSuchPage`, and on a bundled document an empty page slot also
fails with `NoSuchPage` (the page-slot sequence has one slot per page). -/
theorem getPage_noSuchPage (d : DjVuDocument) (fetch : String → FetchOutcome) (number : Int)
    (hlen : d.pages.length = getPagesQuantity d)
    (h : (number < 1 ∨ (getPagesQuantity d : Int) < number) ∨
         (isBundled d = true ∧ slotAt d number = none)) :
    (getPage d fetch number).1 = .error (.noSuchPage number) := by
  have hlen' : (d.pages.length : Int) = (getPagesQuantity d : Int) := by exact_mod_cast hlen
  have hslot : slotAt d number = none := by
    rcases h with h | h
    · apply slotAt_eq_none_of_out_of_range
      omega
    · exact h.2
  have hcond : number < 1 ∨ (d.pages.length : Int) < number ∨ isBundled d = true := by
    rcases h with h | h
    · rcases h with h | h
      · exact Or.inl h
      · exact Or.inr (Or.inl (by omega))
    · exact Or.inr (Or.inr h.1)
  unfold getPage
  rw [hslot]
  dsimp only
  rw [if_pos hcond]

/-- C7 witness: `getPage(0)` on a loaded one-page bundled document. -/
theorem getPage_noSuchPage_witness :
    exBundledDoc.pages.length = getPagesQuantity exBundledDoc ∧
    (getPage exBundledDoc exFetch 0).1 = .error (.noSuchPage 0) :=
  ⟨rfl, getPage_noSuchPage exBundledDoc exFetch 0 rfl (Or.inl (Or.inl (by decide)))⟩

/-- C6: on an indirect document with no configured base location, `getPage(n)`
on an empty slot with `n` in `[1, pageCount]` fails with `NoBaseUrl`, the
slot array is untouched and the resident-byte counter is unchanged. -/
theorem getPage_noBaseUrl (d : DjVuDocument) (fetch : String → FetchOutcome) (number : Int)
    (hbundled : isBundled d = false)
    (hbase : d.baseUrl = none)
    (hslot : slotAt d number = none)
    (hlen : d.pages.length = getPagesQuantity d)
    (h1 : 1 ≤ number) (h2 : number ≤ (getPagesQuantity d : Int)) :
    (getPage d fetch number).1 = .error .noBaseUrl ∧
    (getPage d fetch number).2.1.pages = d.pages ∧
    (getPage d fetch number).2.1.memoryUsage = d.memoryUsage := by
  have hlen' : (d.pages.length : Int) = (getPagesQuantity d : Int) := by exact_mod_cast hlen
  have hncond : ¬(number < 1 ∨ (d.pages.length : Int) < number ∨ isBundled d = true) := by
    push_neg
    exact ⟨by omega, by omega, by simp [hbundled]⟩
  unfold getPage
  rw [hslot]
  dsimp only
  rw [if_neg hncond, if_pos hbase]
  exact ⟨rfl, rfl, rfl⟩

/-- C6 witness: `getPage(5)` on a five-page indirect document built without a
base location. -/
theorem getPage_noBaseUrl_witness :
    (getPage (mkIndirectDocument 100 5 none 1000000 (fun _ => "") (fun s => s)) exFetch 5).1
      = .error .noBaseUrl ∧
    (getPage (mkIndirectDocument 100 5 none 1000000 (fun _ => "") (fun s => s)) exFetch 5).2.1.memoryUsage
      = (mkIndirectDocument 100 5 none 1000000 (fun _ => "") (fun s => s)).memoryUsage := by
  have h := getPage_noBaseUrl (mkIndirectDocument 100 5 none 1000000 (fun _ => "") (fun s => s))
    exFetch 5 rfl rfl rfl rfl (by decide) (by decide)
  exact ⟨h.1, h.2.2⟩

/-- C8 counterexample: on a single-page document the identifier-to-page map
is never initialised, so `getPageNumberByUrl("#1")` raises a TypeError
(modelled `none`) instead of resolving the in-range fragment `#1` to page 1
or yielding no page number. -/
theorem getPageNumberByUrl_counterexample :
    getPageNumberByUrl (mkSinglePageDocument ⟨1, 40, []⟩ none 1000) "#1" = none ∧
    getPagesQuantity (mkSinglePageDocument ⟨1, 40, []⟩ none 1000) = 1 := ⟨rfl, rfl⟩

/-- C8 amended: on every document whose identifier-to-page-number map is
initialised (every multi-page document), a fragment `#id` resolves through
the map first; failing that, `#NNN` resolves by numeric parsing accepted
exactly when the value lies in `[1, pageCount]`; strings not starting with
`#` and unresolvable fragments yield no page number. -/
theorem getPageNumberByUrl_spec (d : DjVuDocument) (m : List (String × Nat))
    (hm : d.idToPageNumberMap = some m)
    (hlen : d.pages.length = getPagesQuantity d) :
    (∀ url : String, url.data.head? ≠ some '#' → getPageNumberByUrl d url = some none) ∧
    (∀ ref v, lookupId m ref = some v → v ≠ 0 →
        getPageNumberByUrl d ("#" ++ ref) = some (some v)) ∧
    (∀ ref num, (lookupId m ref).getD 0 = 0 → jsRoundNumber ref = some num →
        1 ≤ num → num ≤ (getPagesQuantity d : Int) →
        getPageNumberByUrl d ("#" ++ ref) = some (some num.toNat)) ∧
    (∀ ref, (lookupId m ref).getD 0 = 0 →
        (jsRoundNumber ref = none ∨
          ∃ num, jsRoundNumber ref = some num ∧ (num < 1 ∨ (getPagesQuantity d : Int) < num)) →
        getPageNumberByUrl d ("#" ++ ref) = some none) := by
  have hlen' : (d.pages.length : Int) = (getPagesQuantity d : Int) := by exact_mod_cast hlen
  have hhead : ∀ ref : String, ("#" ++ ref).data = '#' :: ref.data := fun ref => rfl
  have hnothash : ∀ ref : String, ¬(("#" ++ ref).data.head? ≠ some '#') := by
    intro ref
    rw [hhead ref]
    simp
  have hrefeq : ∀ ref : String, (⟨("#" ++ ref).data.drop 1⟩ : String) = ref := by
    intro ref
    rw [hhead ref]
    rfl
  refine ⟨?_, ?_, ?_, ?_⟩
  · intro url h
    unfold getPageNumberByUrl
    rw [if_pos h]
  · intro ref v hv hvne
    unfold getPageNumberByUrl
    rw [if_neg (hnothash ref), hm]
    dsimp only
    rw [hrefeq ref, hv]
    dsimp only [Option.getD]
    rw [if_neg hvne, if_neg hvne]
  · intro ref num h0 hnum hlow hhigh
    unfold getPageNumberByUrl
    rw [if_neg (hnothash ref), hm]
    dsimp only
    rw [hrefeq ref, if_pos h0, hnum]
    dsimp only
    have hin : 1 ≤ num ∧ num ≤ (d.pages.length : Int) := ⟨hlow, by omega⟩
    rw [if_pos hin]
    have hne : ¬(num.toNat = 0) := by omega
    rw [if_neg hne]
  · intro ref h0 hbad
    unfold getPageNumberByUrl
    rw [if_neg (hnothash ref), hm]
    dsimp only
    rw [hrefeq ref, if_pos h0]
    rcases hbad with hnone | ⟨num, hnum, hout⟩
    · rw [hnone]
      dsimp only
      rw [if_pos rfl]
    · rw [hnum]
      dsimp only
      have hnin : ¬(1 ≤ num ∧ num ≤ (d.pages.length : Int)) := by
        rintro ⟨ha, hb⟩
        omega
      rw [if_neg hnin, if_pos rfl]

/-- C8 witness: the map hit `#pg1` on the bundled fixture resolves to 1. -/
theorem getPageNumberByUrl_spec_witness :
    getPageNumberByUrl exBundledDoc ("#" ++ "pg1") = some (some 1) :=
  (getPageNumberByUrl_spec exBundledDoc [("pg1", 1)] rfl rfl).2.1 "pg1" 1 rfl (by decide)

/-- C10: every `getPage(n)` call — calls failing with `NoSuchPage` or
`NoBaseUrl` included — first releases the decode state of the previously
returned page whenever the requested slot holds a different instance (or
none), and the two early error paths still overwrite the held decode-state
pointer with the requested slot's content, so they are not state-preserving
with respect to the previous page's decode state. -/
theorem getPage_pointer_overwrite (d : DjVuDocument) (fetch : String → FetchOutcome)
    (number : Int) :
    (∀ prev, d.lastRequestedPage = some prev →
      (∀ p, slotAt d number = some p → prev.token ≠ p.token) →
      ((getPage d fetch number).2.2).head? = some (.reset prev.token)) ∧
    (((getPage d fetch number).1 = .error (.noSuchPage number) ∨
      (getPage d fetch number).1 = .error .noBaseUrl) →
      (getPage d fetch number).2.1.lastRequestedPage = slotAt d number) := by
  cases hslot : slotAt d number with
  | none =>
    unfold getPage
    rw [hslot]
    dsimp only
    constructor
    · intro prev hprev _
      rw [hprev]
      dsimp only
      by_cases h1 : number < 1 ∨ (d.pages.length : Int) < number ∨ isBundled d = true
      · rw [if_pos h1]
        rfl
      · rw [if_neg h1]
        by_cases h2 : d.baseUrl = none
        · rw [if_pos h2]
          rfl
        · rw [if_neg h2]
          cases hf : fetch (jsStringOfBaseUrl d.baseUrl ++ d.dirmPageName number) with
          | networkFailure => rfl
          | unsuccessful => rfl
          | success blob =>
            dsimp only
            by_cases hm : blob.magicOk = false
            · rw [if_pos hm]
              rfl
            · rw [if_neg hm]
              rcases hld : loadDependencies
                  { d with lastRequestedPage := none,
                           memoryUsage := d.memoryUsage + (blob.byteLength : Int) }
                  fetch blob.pageDeps (some number) with ⟨eopt, d₂, deff⟩
              cases eopt <;> rfl
    · by_cases h1 : number < 1 ∨ (d.pages.length : Int) < number ∨ isBundled d = true
      · rw [if_pos h1]
        intro _
        rfl
      · rw [if_neg h1]
        by_cases h2 : d.baseUrl = none
        · rw [if_pos h2]
          intro _
          rfl
        · rw [if_neg h2]
          cases hf : fetch (jsStringOfBaseUrl d.baseUrl ++ d.dirmPageName number) with
          | networkFailure =>
            intro _
            rfl
          | unsuccessful =>
            intro _
            rfl
          | success blob =>
            dsimp only
            by_cases hm : blob.magicOk = false
            · rw [if_pos hm]
              intro _
              rfl
            · rw [if_neg hm]
              have hframe := loadDependencies_frame
                { d with lastRequestedPage := none,
                         memoryUsage := d.memoryUsage + (blob.byteLength : Int) }
                fetch blob.pageDeps (some number)
              rcases hld : loadDependencies
                  { d with lastRequestedPage := none,
                           memoryUsage := d.memoryUsage + (blob.byteLength : Int) }
                  fetch blob.pageDeps (some number) with ⟨eopt, d₂, deff⟩
              rw [hld] at hframe
              dsimp only at hframe
              cases eopt with
              | some e =>
                intro _
                exact hframe.2.2.1
              | none =>
                intro herr
                rcases herr with h | h <;> simp at h
  | some p =>
    have hframe := loadDependencies_frame { d with lastRequestedPage := some p }
      fetch p.deps (some 1)
    rcases hld : loadDependencies { d with lastRequestedPage := some p }
        fetch p.deps (some 1) with ⟨eopt, d₂, deff⟩
    rw [hld] at hframe
    dsimp only at hframe
    unfold getPage
    rw [hslot]
    dsimp only
    constructor
    · intro prev hprev htok
      rw [hprev]
      dsimp only
      rw [if_pos (htok p rfl)]
      by_cases hsp : d.isOnePageDependenciesLoaded = false ∧ d.id = "FORMDJVU"
      · rw [if_pos hsp]
        by_cases hde : p.deps.isEmpty = true
        · rw [if_pos hde]
          rfl
        · rw [if_neg hde, hld]
          cases eopt <;> rfl
      · rw [if_neg hsp]
        rfl
    · by_cases hsp : d.isOnePageDependenciesLoaded = false ∧ d.id = "FORMDJVU"
      · rw [if_pos hsp]
        by_cases hde : p.deps.isEmpty = true
        · rw [if_pos hde]
          intro _
          rfl
        · rw [if_neg hde, hld]
          cases eopt with
          | some e =>
            intro _
            exact hframe.2.2.1
          | none =>
            intro _
            exact hframe.2.2.1
      · rw [if_neg hsp]
        intro _
        rfl

/-- C10 witness: with a previously returned page of token 99 held,
`getPage(1)` on a slot holding a different page first emits its reset, and
the failing `getPage(0)` still overwrites the pointer with the (empty)
requested slot. -/
theorem getPage_pointer_overwrite_witness :
    ((getPage { exBundledDoc with
        lastRequestedPage := some ⟨99, 10, []⟩ } exFetch 1).2.2).head?
      = some (.reset 99) ∧
    (getPage { exBundledDoc with
        lastRequestedPage := some ⟨99, 10, []⟩ } exFetch 0).2.1.lastRequestedPage
      = slotAt { exBundledDoc with lastRequestedPage := some ⟨99, 10, []⟩ } 0 := by
  constructor
  · apply (getPage_pointer_overwrite
      { exBundledDoc with lastRequestedPage := some ⟨99, 10, []⟩ } exFetch 1).1 ⟨99, 10, []⟩ rfl
    intro p hp
    have h3 : some ({ token := 3, byteLength := 50, deps := [] } : DjVuPage) = some p := hp
    injection h3 with h3
    rw [← h3]
    decide
  · exact (getPage_pointer_overwrite
      { exBundledDoc with lastRequestedPage := some ⟨99, 10, []⟩ } exFetch 0).2
      (Or.inl rfl)

/-- C1 counterexample (the spec scenario itself): three missing shared
resources `a`, `b`, `c`; the fetch of `b` returns a non-success response.
The whole `getPage` call does fail with `UnsuccessfulRequest`, but the
sibling resources `a` and `c` ARE installed into the shared-resource map and
the resident-byte counter has grown by the page buffer plus the two
installed resources (100 → 162), so "none of the resources are installed"
and "resident-byte counter unchanged" are both false on the code. -/
theorem getPage_dependency_failure_counterexample :
    (getPage exIndirectDoc exFetch 1).1
      = .error (.unsuccessfulRequest (some 1) (some "b")) ∧
    lookupId (getPage exIndirectDoc exFetch 1).2.1.djvi "a" = some 10 ∧
    lookupId (getPage exIndirectDoc exFetch 1).2.1.djvi "c" = some 12 ∧
    (getPage exIndirectDoc exFetch 1).2.1.memoryUsage = 162 ∧
    exIndirectDoc.memoryUsage = 100 := by
  exact ⟨rfl, by decide, by decide, by decide, by decide⟩

/-- C1 amended: when the dependency batch of a `getPage` call on an indirect
document fails, the whole call fails with the batch's error and the page is
neither installed into its slot nor recorded as loaded, but sibling
resources whose own fetch succeeded and validated are installed into the
shared-resource map, and the resident-byte counter retains the fetched page
buffer's bytes plus the installed siblings' bytes. -/
theorem getPage_dependency_failure (d : DjVuDocument) (fetch : String → FetchOutcome)
    (number : Int) (blob : Blob) (e : DjVuError) (d₂ : DjVuDocument)
    (depEffects : List Effect)
    (hslot : slotAt d number = none)
    (hin : ¬(number < 1 ∨ (d.pages.length : Int) < number ∨ isBundled d = true))
    (hbase : ¬(d.baseUrl = none))
    (hfetch : fetch (jsStringOfBaseUrl d.baseUrl ++ d.dirmPageName number) = .success blob)
    (hmagic : ¬(blob.magicOk = false))
    (hld : loadDependencies
        { d with lastRequestedPage := none,
                 memoryUsage := d.memoryUsage + (blob.byteLength : Int) }
        fetch blob.pageDeps (some number) = (some e, d₂, depEffects)) :
    (getPage d fetch number).1 = .error e ∧
    (getPage d fetch number).2.1 = d₂ ∧
    d₂.pages = d.pages ∧
    d₂.loadedPageNumbers = d.loadedPageNumbers ∧
    d₂.lastRequestedPage = none ∧
    (∀ id ∈ blob.pageDeps, ∀ b : Blob, fetch (depUrl d id) = .success b →
        b.magicOk = true → b.formId = "FORMDJVI" → (lookupId d₂.djvi id).isSome) ∧
    d.memoryUsage + (blob.byteLength : Int) ≤ d₂.memoryUsage := by
  have hframe := loadDependencies_frame
    { d with lastRequestedPage := none,
             memoryUsage := d.memoryUsage + (blob.byteLength : Int) }
    fetch blob.pageDeps (some number)
  rw [hld] at hframe
  dsimp only at hframe
  have hgp : getPage d fetch number =
      (.error e, d₂,
        (match d.lastRequestedPage, (none : Option DjVuPage) with
          | some prev, some p =>
            if prev.token ≠ p.token then [Effect.reset prev.token] else []
          | some prev, none => [Effect.reset prev.token]
          | none, _ => [])
        ++ [.fetch (jsStringOfBaseUrl d.baseUrl ++ d.dirmPageName number)] ++ depEffects) := by
    unfold getPage
    rw [hslot]
    dsimp only
    rw [if_neg hin, if_neg hbase, hfetch]
    dsimp only
    rw [if_neg hmagic, hld]
  refine ⟨by rw [hgp], by rw [hgp], hframe.1, hframe.2.1, hframe.2.2.1, ?_, ?_⟩
  · intro id hid b hfb hmb hfo
    have h := loadDependencies_installs_own_success
      { d with lastRequestedPage := none,
               memoryUsage := d.memoryUsage + (blob.byteLength : Int) }
      fetch blob.pageDeps (some number) id hid b hfb hmb hfo
    rw [hld] at h
    exact h
  · have h := loadDependencies_mem_mono
      { d with lastRequestedPage := none,
               memoryUsage := d.memoryUsage + (blob.byteLength : Int) }
      fetch blob.pageDeps (some number)
    rw [hld] at h
    exact h

/-- C1 witness: the amended statement applied to the three-resource
scenario. -/
theorem getPage_dependency_failure_witness :
    (getPage exIndirectDoc exFetch 1).1
      = .error (.unsuccessfulRequest (some 1) (some "b")) ∧
    (getPage exIndirectDoc exFetch 1).2.1.loadedPageNumbers
      = exIndirectDoc.loadedPageNumbers := by
  have h := getPage_dependency_failure exIndirectDoc exFetch 1
    { magicOk := true, formId := "FORMDJVU", byteLength := 40,
      pageDeps := ["a", "b", "c"], token := 7 }
    (.unsuccessfulRequest (some 1) (some "b"))
    (loadDependencies
      { exIndirectDoc with lastRequestedPage := none,
                           memoryUsage := exIndirectDoc.memoryUsage + ((40 : Nat) : Int) }
      exFetch ["a", "b", "c"] (some 1)).2.1
    (loadDependencies
      { exIndirectDoc with lastRequestedPage := none,
                           memoryUsage := exIndirectDoc.memoryUsage + ((40 : Nat) : Int) }
      exFetch ["a", "b", "c"] (some 1)).2.2
    rfl (by decide) (by decide) rfl (by decide) rfl
  refine ⟨h.1, ?_⟩
  rw [h.2.1]
  exact h.2.2.2.1

/-- Decimal digits below ten render to distinct character codes: the rendered
character's code point is `48 + d`. -/
theorem charOfDigit_toNat (d : Nat) (h : d < 10) : (Char.ofNat (48 + d)).toNat = 48 + d := by
  interval_cases d <;> decide

/-- Digit-to-character rendering is injective on decimal digits. -/
theorem charOfDigit_inj (d1 d2 : Nat) (h1 : d1 < 10) (h2 : d2 < 10)
    (h : Char.ofNat (48 + d1) = Char.ofNat (48 + d2)) : d1 = d2 := by
  have hc := congrArg Char.toNat h
  rw [charOfDigit_toNat d1 h1, charOfDigit_toNat d2 h2] at hc
  omega

/-- Mapping digit rendering over two bounded digit lists is injective. -/
theorem mapDigits_inj : ∀ (l1 l2 : List Nat), (∀ d ∈ l1, d < 10) → (∀ d ∈ l2, d < 10) →
    l1.map (fun digit => Char.ofNat (48 + digit))
      = l2.map (fun digit => Char.ofNat (48 + digit)) →
    l1 = l2
  | [], [], _, _, _ => rfl
  | [], _ :: _, _, _, h => by simp at h
  | _ :: _, [], _, _, h => by simp at h
  | a :: l1, b :: l2, hb1, hb2, h => by
    simp only [List.map_cons, List.cons.injEq] at h
    have hab : a = b :=
      charOfDigit_inj a b (hb1 a (List.mem_cons_self a l1)) (hb2 b (List.mem_cons_self b l2)) h.1
    have htail : l1 = l2 :=
      mapDigits_inj l1 l2 (fun d hd => hb1 d (List.mem_cons_of_mem a hd))
        (fun d hd => hb2 d (List.mem_cons_of_mem b hd)) h.2
    rw [hab, htail]

/-- A nonzero counter never renders to the string `"0"`. -/
theorem natToString_ne_zero (n : Nat) (hn : ¬ n = 0) : ¬ natToString n = "0" := by
  intro h
  unfold natToString at h
  rw [if_neg hn] at h
  have hd : (Nat.digits 10 n).reverse.map (fun digit => Char.ofNat (48 + digit)) = ['0'] :=
    congrArg String.data h
  rcases hrev : (Nat.digits 10 n).reverse with _ | ⟨d, rest⟩
  · rw [hrev] at hd
    simp at hd
  · rw [hrev] at hd
    simp only [List.map_cons, List.cons.injEq] at hd
    obtain ⟨hchar, htail⟩ := hd
    have hrest : rest = [] := by
      cases rest with
      | nil => rfl
      | cons a l => simp at htail
    subst hrest
    have hdigits : Nat.digits 10 n = [d] := by
      have h2 := congrArg List.reverse hrev
      rw [List.reverse_reverse] at h2
      rw [h2]
      rfl
    have hdlt : d < 10 :=
      Nat.digits_lt_base (by norm_num) (by rw [hdigits]; exact List.mem_singleton.mpr rfl)
    have hd0 : d = 0 := by
      have hz : ('0' : Char) = Char.ofNat (48 + 0) := by decide
      rw [hz] at hchar
      exact charOfDigit_inj d 0 hdlt (by norm_num) hchar
    subst hd0
    have hofd := Nat.ofDigits_digits 10 n
    rw [hdigits] at hofd
    simp [Nat.ofDigits] at hofd
    omega

/-- The decimal rendering of the deduplication counter is injective. -/
theorem natToString_inj (m n : Nat) (h : natToString m = natToString n) : m = n := by
  by_cases hm : m = 0 <;> by_cases hn : n = 0
  · omega
  · subst hm
    exact absurd h.symm (natToString_ne_zero n hn)
  · subst hn
    exact absurd h (natToString_ne_zero m hm)
  · unfold natToString at h
    rw [if_neg hm, if_neg hn] at h
    have hd : (Nat.digits 10 m).reverse.map (fun digit => Char.ofNat (48 + digit))
        = (Nat.digits 10 n).reverse.map (fun digit => Char.ofNat (48 + digit)) :=
      congrArg String.data h
    have hrev := mapDigits_inj _ _
      (fun d hd2 => Nat.digits_lt_base (by norm_num) (List.mem_reverse.mp hd2))
      (fun d hd2 => Nat.digits_lt_base (by norm_num) (List.mem_reverse.mp hd2)) hd
    have hdig : Nat.digits 10 m = Nat.digits 10 n := by
      have h2 := congrArg List.reverse hrev
      rwa [List.reverse_reverse, List.reverse_reverse] at h2
    have h3 := congrArg (Nat.ofDigits 10) hdig
    rwa [Nat.ofDigits_digits, Nat.ofDigits_digits] at h3

/-- String concatenation cancels on the left. -/
theorem string_append_cancel_left (a s t : String) (h : a ++ s = a ++ t) : s = t := by
  have hd : a.data ++ s.data = a.data ++ t.data := congrArg String.data h
  exact String.ext (List.append_cancel_left hd)

/-- Deduplication candidates built from the same stem are pairwise distinct. -/
theorem candidate_inj (orig : String) (t1 t2 : Nat)
    (h : orig ++ natToString t1 = orig ++ natToString t2) : t1 = t2 :=
  natToString_inj t1 t2 (string_append_cancel_left orig _ _ h)

/-- Pigeonhole for the deduplication loop: among the first `idset.length + 1`
candidates, at least one is not in `idset`. -/
theorem exists_fresh_candidate (orig : String) (idset : List String) :
    ∃ t, t ≤ idset.length ∧ orig ++ natToString t ∉ idset := by
  by_contra hall
  push_neg at hall
  have hsub : (Finset.range (idset.length + 1)).image (fun t => orig ++ natToString t)
      ⊆ idset.toFinset := by
    intro x hx
    simp only [Finset.mem_image, Finset.mem_range] at hx
    obtain ⟨t, ht, rfl⟩ := hx
    exact List.mem_toFinset.mpr (hall t (by omega))
  have hcard : idset.length + 1 ≤ idset.toFinset.card := by
    calc idset.length + 1
        = (Finset.range (idset.length + 1)).card := (Finset.card_range _).symm
      _ = ((Finset.range (idset.length + 1)).image (fun t => orig ++ natToString t)).card :=
          (Finset.card_image_of_injOn (fun t1 _ t2 _ h => candidate_inj orig t1 t2 h)).symm
      _ ≤ idset.toFinset.card := Finset.card_le_card hsub
  have hle := List.toFinset_card_le idset
  omega

/-- If a fresh candidate exists within the fuel window, the deduplication loop
returns an identifier not in `idset`. -/
theorem genUniqueAux_not_mem (orig : String) (idset : List String) :
    ∀ (fuel tmp : Nat), (∃ t, t < fuel ∧ orig ++ natToString (tmp + t) ∉ idset) →
      genUniqueAux orig idset tmp fuel ∉ idset := by
  intro fuel
  induction fuel with
  | zero =>
    intro tmp h
    obtain ⟨t, ht, _⟩ := h
    omega
  | succ fuel ih =>
    intro tmp h
    unfold genUniqueAux
    dsimp only
    by_cases hc : orig ++ natToString tmp ∈ idset
    · rw [if_pos hc]
      obtain ⟨t, ht, hnm⟩ := h
      cases t with
      | zero =>
        rw [Nat.add_zero] at hnm
        exact absurd hc hnm
      | succ u =>
        apply ih (tmp + 1)
        refine ⟨u, by omega, ?_⟩
        have he : tmp + 1 + u = tmp + (u + 1) := by omega
        rw [he]
        exact hnm
    · rw [if_neg hc]
      exact hc

/-- The deduplicated identifier produced by `genUniqueId` is never in the
identifier set it was deduplicated against (the loop terminates within its
fuel, by pigeonhole). -/
theorem genUniqueId_not_mem (orig : String) (idset : List String) :
    genUniqueId orig idset ∉ idset := by
  unfold genUniqueId
  by_cases ho : orig ∈ idset
  · rw [if_pos ho]
    apply genUniqueAux_not_mem
    obtain ⟨t, ht, hnm⟩ := exists_fresh_candidate orig idset
    refine ⟨t, by omega, ?_⟩
    have hz : 0 + t = t := Nat.zero_add t
    rw [hz]
    exact hnm
  · rw [if_neg ho]
    exact ho

/-- A step-indexed fold invariant. -/
theorem foldl_inv {α β : Type} (step : α → β → α) (P : α → Prop)
    (hstep : ∀ a b, P a → P (step a b)) :
    ∀ (l : List β) (a : α), P a → P (List.foldl step a l)
  | [], _, h => h
  | b :: l, a, h => foldl_inv step P hstep l (step a b) (hstep a b h)

/-- One copy-loop step preserves `concat`'s invariant: the output flag word
stays 129, the emitted identifiers stay pairwise distinct, and every emitted
identifier is recorded in `idset`. -/
theorem concatStep_inv (acc : ConcatDirm × List String) (entry : Nat × Nat × String)
    (h : acc.1.dflags = 129 ∧ acc.1.ids.Nodup ∧ ∀ x ∈ acc.1.ids, x ∈ acc.2) :
    (concatStep acc entry).1.dflags = 129 ∧ (concatStep acc entry).1.ids.Nodup ∧
      ∀ x ∈ (concatStep acc entry).1.ids, x ∈ (concatStep acc entry).2 := by
  obtain ⟨hdf, hnd, hsub⟩ := h
  unfold concatStep
  dsimp only
  refine ⟨hdf, ?_, ?_⟩
  · refine List.nodup_append.mpr ⟨hnd, List.nodup_singleton _, ?_⟩
    intro x hx hx2
    rw [List.mem_singleton] at hx2
    rw [hx2] at hx
    exact genUniqueId_not_mem entry.2.2 acc.2 (hsub _ hx)
  · intro x hx
    rcases List.mem_append.mp hx with h1 | h2
    · exact List.mem_append_left _ (hsub x h1)
    · exact List.mem_append_right _ h2

/-- C4: for every pair of merge inputs whose directory identifiers are each
internally unique, `concat` produces a directory in which no two entries share
an identifier, and the output directory flag word marks the merged container
as bundled. -/
theorem concat_unique_identifiers (doc1 doc2 : ConcatSide)
    (h1 : sideIdsNodup doc1) (h2 : sideIdsNodup doc2) :
    (concat doc1 doc2).ids.Nodup ∧
      dirmFlagMarksBundled (concat doc1 doc2).dflags = true := by
  cases doc1 with
  | bare n1 =>
    cases doc2 with
    | bare n2 =>
      unfold concat
      dsimp only
      refine ⟨?_, rfl⟩
      refine List.nodup_append.mpr ⟨List.nodup_singleton _, List.nodup_singleton _, ?_⟩
      intro x hx hx2
      rw [List.mem_singleton] at hx2
      rw [hx2] at hx
      exact genUniqueId_not_mem "single2" ["single"] hx
    | withDirm f2 s2 i2 p2 =>
      have key := foldl_inv concatStep
        (fun acc => acc.1.dflags = 129 ∧ acc.1.ids.Nodup ∧ ∀ x ∈ acc.1.ids, x ∈ acc.2)
        concatStep_inv
        ((f2.take p2).zip ((s2.take p2).zip (i2.take p2)))
        ({ dflags := 129, flags := [1], sizes := [n1], ids := ["single"] }, ["single"])
        ⟨rfl, List.nodup_singleton _, fun x hx => hx⟩
      unfold concat
      dsimp only
      exact ⟨key.2.1, by rw [key.1]; rfl⟩
  | withDirm f1 s1 i1 p1 =>
    have h1n : i1.Nodup := h1
    have htake : (i1.take p1).Nodup := (List.take_sublist p1 i1).nodup h1n
    cases doc2 with
    | bare n2 =>
      unfold concat
      dsimp only
      refine ⟨?_, rfl⟩
      refine List.nodup_append.mpr ⟨htake, List.nodup_singleton _, ?_⟩
      intro x hx hx2
      rw [List.mem_singleton] at hx2
      rw [hx2] at hx
      exact genUniqueId_not_mem "single2" (i1.take p1) hx
    | withDirm f2 s2 i2 p2 =>
      have key := foldl_inv concatStep
        (fun acc => acc.1.dflags = 129 ∧ acc.1.ids.Nodup ∧ ∀ x ∈ acc.1.ids, x ∈ acc.2)
        concatStep_inv
        ((f2.take p2).zip ((s2.take p2).zip (i2.take p2)))
        ({ dflags := 129, flags := f1.take p1, sizes := s1.take p1, ids := i1.take p1 },
          i1.take p1)
        ⟨rfl, htake, fun x hx => hx⟩
      unfold concat
      dsimp only
      exact ⟨key.2.1, by rw [key.1]; rfl⟩

/-- C4 witness: merging two directories that share the identifier `a`. -/
theorem concat_unique_identifiers_witness :
    (concat (ConcatSide.withDirm [1, 1] [10, 20] ["a", "b"] 2)
        (ConcatSide.withDirm [1] [30] ["a"] 1)).ids.Nodup ∧
      dirmFlagMarksBundled
        (concat (ConcatSide.withDirm [1, 1] [10, 20] ["a", "b"] 2)
          (ConcatSide.withDirm [1] [30] ["a"] 1)).dflags = true :=
  concat_unique_identifiers (ConcatSide.withDirm [1, 1] [10, 20] ["a", "b"] 2)
    (ConcatSide.withDirm [1] [30] ["a"] 1)
    (show List.Nodup ["a", "b"] by decide) (show List.Nodup ["a"] by decide)

/-- C5: when the governor runs over budget, it evicts loaded pages in load
order (oldest first), clearing each evicted slot and subtracting its byte
length, stopping as soon as it is under budget or out of loaded pages; only
when still over budget with no loaded pages left does it drop the held decode
state and rebuild the shared-resource map to hold exactly the preserve-set
identifiers, with the counter losing exactly the removed resources' bytes and
the preserved resources' bytes left counted. -/
theorem releaseMemory_fifo_then_dict (d : DjVuDocument) (pres : List String)
    (hover : d.memoryLimit < d.memoryUsage)
    (hB : d.loadedPageNumbers.Nodup)
    (hC : ∀ i ∈ d.loadedPageNumbers, ((d.pages[i]?).join).isSome)
    (hpn : pres.Nodup)
    (hkeys : (d.djvi.map Prod.fst).Nodup) :
    ∃ k, k ≤ d.loadedPageNumbers.length ∧
      (releaseMemoryIfRequired d (some pres)).1.loadedPageNumbers =
        d.loadedPageNumbers.drop k ∧
      (releaseMemoryIfRequired d (some pres)).1.pages =
        clearSlots d.pages (d.loadedPageNumbers.take k) ∧
      (∀ j, j < k →
        d.memoryLimit < d.memoryUsage - evictedBytes d.pages (d.loadedPageNumbers.take j)) ∧
      (k < d.loadedPageNumbers.length →
        d.memoryUsage - evictedBytes d.pages (d.loadedPageNumbers.take k) ≤ d.memoryLimit) ∧
      ((d.memoryLimit < d.memoryUsage - evictedBytes d.pages (d.loadedPageNumbers.take k) ∧
          d.loadedPageNumbers.drop k = []) →
        (releaseMemoryIfRequired d (some pres)).1.lastRequestedPage = none ∧
        (∀ id, lookupId (releaseMemoryIfRequired d (some pres)).1.djvi id =
          if id ∈ pres then lookupId d.djvi id else none) ∧
        (releaseMemoryIfRequired d (some pres)).1.memoryUsage =
          d.memoryUsage - evictedBytes d.pages (d.loadedPageNumbers.take k)
            - djviBytes (d.djvi.filter (fun e => !(decide (e.1 ∈ pres)))) ∧
        djviBytes (releaseMemoryIfRequired d (some pres)).1.djvi =
          djviBytes (d.djvi.filter (fun e => decide (e.1 ∈ pres)))) ∧
      (¬(d.memoryLimit < d.memoryUsage - evictedBytes d.pages (d.loadedPageNumbers.take k) ∧
          d.loadedPageNumbers.drop k = []) →
        (releaseMemoryIfRequired d (some pres)).1.djvi = d.djvi ∧
        (releaseMemoryIfRequired d (some pres)).1.lastRequestedPage = d.lastRequestedPage ∧
        (releaseMemoryIfRequired d (some pres)).1.memoryUsage =
          d.memoryUsage - evictedBytes d.pages (d.loadedPageNumbers.take k)) := by
  obtain ⟨k, hk, h1, h2, hmin, hstop, hdict, hnodict⟩ := releaseMemory_spec d pres hB hC hover
  refine ⟨k, hk, h1, h2, hmin, hstop, ?_, ?_⟩
  · intro hc
    obtain ⟨hdj, hmem, hlast, heff⟩ := hdict hc
    refine ⟨hlast, ?_, ?_, ?_⟩
    · intro id
      rw [hdj]
      exact lookupId_restrictDjvi d.djvi pres hpn id
    · rw [hmem, preservedBytes_eq_filter d.djvi pres hkeys hpn,
        djviBytes_filter_split (fun e => decide (e.1 ∈ pres)) d.djvi]
      ring
    · rw [hdj, djviBytes_restrictDjvi d.djvi pres hpn]
      exact preservedBytes_eq_filter d.djvi pres hkeys hpn
  · intro hc
    obtain ⟨hdj, hmem, hlast, heff⟩ := hnodict hc
    exact ⟨hdj, hlast, hmem⟩

/-- C5 witness: a one-page bundled document 52 bytes over a 10-byte budget;
evicting the only loaded page leaves it over budget, so the governor then
restricts the resource map to the preserve set. -/
theorem releaseMemory_fifo_then_dict_witness :
    ∃ k, k ≤ 1 ∧
      (releaseMemoryIfRequired { exBundledDoc with memoryLimit := 10, memoryUsage := 62, loadedPageNumbers := [0], djvi := [("a", 10), ("b", 2)] } (some ["a"])).1.loadedPageNumbers = [0].drop k := by
  obtain ⟨k, hk, h1, _⟩ := releaseMemory_fifo_then_dict
    { exBundledDoc with memoryLimit := 10, memoryUsage := 62, loadedPageNumbers := [0], djvi := [("a", 10), ("b", 2)] }
    ["a"] (by decide) (by decide) (by decide) (by decide) (by decide)
  exact ⟨k, hk, h1⟩

/-- The eviction loop only writes `none` into slots: a slot that already
holds `none` still holds `none` afterwards. -/
theorem evictPagesLoop_slot_none (limit : Int) :
    ∀ (nums : List Nat) (slots : List (Option DjVuPage)) (mem : Int) (i : Nat),
      slots[i]? = some none →
      (evictPagesLoop limit slots nums mem).1[i]? = some none
  | [], _, _, _, h => h
  | n :: rest, slots, mem, i, h => by
    unfold evictPagesLoop
    by_cases hm : limit < mem
    · rw [if_pos hm]
      apply evictPagesLoop_slot_none limit rest
      by_cases hni : n = i
      · subst hni
        have hlt : n < slots.length := by
          by_contra hge
          rw [List.getElem?_eq_none_iff.mpr (by omega)] at h
          exact Option.noConfusion h
        rw [List.getElem?_set_self hlt]
      · rw [List.getElem?_set_ne hni]
        exact h
    · rw [if_neg hm]
      exact h

/-- The eviction loop's remaining-numbers output only contains input
numbers. -/
theorem evictPagesLoop_not_mem_nums (limit : Int) :
    ∀ (nums : List Nat) (slots : List (Option DjVuPage)) (mem : Int) (i : Nat),
      i ∉ nums → i ∉ (evictPagesLoop limit slots nums mem).2.1
  | [], _, _, _, h => h
  | n :: rest, slots, mem, i, h => by
    unfold evictPagesLoop
    by_cases hm : limit < mem
    · rw [if_pos hm]
      exact evictPagesLoop_not_mem_nums limit rest _ _ i
        (fun hx => h (List.mem_cons_of_mem _ hx))
    · rw [if_neg hm]
      exact h

/-- The governor never fills a slot: an empty slot stays empty. -/
theorem releaseMemory_slot_none (d : DjVuDocument) (pres : Option (List String)) (i : Nat)
    (h : d.pages[i]? = some none) :
    (releaseMemoryIfRequired d pres).1.pages[i]? = some none := by
  unfold releaseMemoryIfRequired
  by_cases h1 : d.memoryUsage ≤ d.memoryLimit
  · rw [if_pos h1]
    exact h
  · rw [if_neg h1]
    dsimp only
    by_cases h2 : d.memoryLimit <
        (evictPagesLoop d.memoryLimit d.pages d.loadedPageNumbers d.memoryUsage).2.2 ∧
        (evictPagesLoop d.memoryLimit d.pages d.loadedPageNumbers d.memoryUsage).2.1 = []
    · rw [if_pos h2]
      exact evictPagesLoop_slot_none d.memoryLimit d.loadedPageNumbers d.pages d.memoryUsage i h
    · rw [if_neg h2]
      exact evictPagesLoop_slot_none d.memoryLimit d.loadedPageNumbers d.pages d.memoryUsage i h

/-- The governor never records new loaded page numbers. -/
theorem releaseMemory_not_loaded (d : DjVuDocument) (pres : Option (List String)) (i : Nat)
    (h : i ∉ d.loadedPageNumbers) :
    i ∉ (releaseMemoryIfRequired d pres).1.loadedPageNumbers := by
  unfold releaseMemoryIfRequired
  by_cases h1 : d.memoryUsage ≤ d.memoryLimit
  · rw [if_pos h1]
    exact h
  · rw [if_neg h1]
    dsimp only
    by_cases h2 : d.memoryLimit <
        (evictPagesLoop d.memoryLimit d.pages d.loadedPageNumbers d.memoryUsage).2.2 ∧
        (evictPagesLoop d.memoryLimit d.pages d.loadedPageNumbers d.memoryUsage).2.1 = []
    · rw [if_pos h2]
      exact evictPagesLoop_not_mem_nums d.memoryLimit d.loadedPageNumbers d.pages d.memoryUsage i h
    · rw [if_neg h2]
      exact evictPagesLoop_not_mem_nums d.memoryLimit d.loadedPageNumbers d.pages d.memoryUsage i h

/-- A freshly built indirect document has no loaded bytes. -/
theorem loadedBytes_replicate (q : Nat) : loadedBytes (List.replicate q none) = 0 := by
  induction q with
  | zero => rfl
  | succ k ih =>
    show loadedBytes (none :: List.replicate k none) = 0
    rw [loadedBytes_cons_none, ih]

/-- After a governor run, either the counter is within budget or no eviction
candidates remain: no loaded pages, and every resident resource identifier is
in the preserve set. -/
theorem releaseMemory_postcondition (d : DjVuDocument) (pres : List String)
    (hB : d.loadedPageNumbers.Nodup)
    (hC : ∀ i ∈ d.loadedPageNumbers, ((d.pages[i]?).join).isSome)
    (hpn : pres.Nodup) :
    (releaseMemoryIfRequired d (some pres)).1.memoryUsage ≤ d.memoryLimit ∨
      ((releaseMemoryIfRequired d (some pres)).1.loadedPageNumbers = [] ∧
        ∀ id, (lookupId (releaseMemoryIfRequired d (some pres)).1.djvi id).isSome →
          id ∈ pres) := by
  by_cases hle : d.memoryUsage ≤ d.memoryLimit
  · left
    have hrel : releaseMemoryIfRequired d (some pres) = (d, []) := by
      unfold releaseMemoryIfRequired
      rw [if_pos hle]
    rw [hrel]
    exact hle
  · obtain ⟨k, hk, h1, h2, hmin, hstop, hdict, hnodict⟩ :=
      releaseMemory_spec d pres hB hC (not_le.mp hle)
    by_cases hcond : d.memoryLimit <
        d.memoryUsage - evictedBytes d.pages (d.loadedPageNumbers.take k) ∧
        d.loadedPageNumbers.drop k = []
    · right
      obtain ⟨hdj, hmem, hlast, heff⟩ := hdict hcond
      constructor
      · rw [h1]
        exact hcond.2
      · intro id hsome
        rw [hdj, lookupId_restrictDjvi d.djvi pres hpn id] at hsome
        by_cases hidp : id ∈ pres
        · exact hidp
        · rw [if_neg hidp] at hsome
          simp at hsome
    · left
      obtain ⟨hdj, hmem, hlast, heff⟩ := hnodict hcond
      rw [hmem]
      by_cases hkend : k < d.loadedPageNumbers.length
      · exact hstop hkend
      · have hdropnil : d.loadedPageNumbers.drop k = [] :=
          List.drop_eq_nil_of_le (by omega)
        have hnotover : ¬ d.memoryLimit <
            d.memoryUsage - evictedBytes d.pages (d.loadedPageNumbers.take k) :=
          fun ho => hcond ⟨ho, hdropnil⟩
        omega

/-- A successful `getPage` call on a document that is not a bare single-page
container preserves the resident-byte bookkeeping invariant (with the same
header constant) and the container tag. -/
theorem getPage_ok_docInv (X : Int) (d : DjVuDocument) (fetch : String → FetchOutcome)
    (hdeps : ∀ url blob, fetch url = .success blob → blob.pageDeps.Nodup)
    (n : Int) (p : DjVuPage) (d' : DjVuDocument) (effs : List Effect)
    (hInv : DocInv X d) (hdjvu : ¬ d.id = "FORMDJVU")
    (hgp : getPage d fetch n = (.ok p, d', effs)) :
    DocInv X d' ∧ d'.id = d.id := by
  obtain ⟨hA, hB, hC, hK⟩ := hInv
  rcases hslot : slotAt d n with _ | p₀
  · unfold getPage at hgp
    rw [hslot] at hgp
    dsimp only at hgp
    by_cases hin : n < 1 ∨ (d.pages.length : Int) < n ∨ isBundled d = true
    · rw [if_pos hin] at hgp
      simp at hgp
    · rw [if_neg hin] at hgp
      push_neg at hin
      by_cases hbase : d.baseUrl = none
      · rw [if_pos hbase] at hgp
        simp at hgp
      · rw [if_neg hbase] at hgp
        rcases hf : fetch (jsStringOfBaseUrl d.baseUrl ++ d.dirmPageName n) with _ | _ | blob
        · rw [hf] at hgp
          simp at hgp
        · rw [hf] at hgp
          simp at hgp
        · rw [hf] at hgp
          dsimp only at hgp
          by_cases hmagic : blob.magicOk = false
          · rw [if_pos hmagic] at hgp
            simp at hgp
          · rw [if_neg hmagic] at hgp
            rcases hld : loadDependencies
                { d with lastRequestedPage := none,
                         memoryUsage := d.memoryUsage + (blob.byteLength : Int) }
                fetch blob.pageDeps (some n) with ⟨eopt, d₂, deff⟩
            rw [hld] at hgp
            cases eopt with
            | some e =>
              simp at hgp
            | none =>
              dsimp only at hgp
              have hjoin : (d.pages[(n - 1).toNat]?).join = none := by
                unfold slotAt at hslot
                rw [if_pos ⟨hin.1, hin.2.1⟩] at hslot
                exact hslot
              have hidxlt : (n - 1).toNat < d.pages.length := by omega
              rcases hx : d.pages[(n - 1).toNat]? with _ | x
              · rw [List.getElem?_eq_none_iff] at hx
                omega
              · rw [hx] at hjoin
                have hxnone : x = none := hjoin
                subst hxnone
                have hidxnot : (n - 1).toNat ∉ d.loadedPageNumbers := by
                  intro hmem
                  have h5 := hC _ hmem
                  rw [hx] at h5
                  simp at h5
                have hfr := loadDependencies_frame
                  { d with lastRequestedPage := none,
                           memoryUsage := d.memoryUsage + (blob.byteLength : Int) }
                  fetch blob.pageDeps (some n)
                rw [hld] at hfr
                have hp2 : d₂.pages = d.pages := hfr.1
                have hl2 : d₂.loadedPageNumbers = d.loadedPageNumbers := hfr.2.1
                have hid2 : d₂.id = d.id := hfr.2.2.2.2.2.1
                have hslotrel :
                    (releaseMemoryIfRequired d₂ (some blob.pageDeps)).1.pages[(n - 1).toNat]?
                      = some none :=
                  releaseMemory_slot_none d₂ (some blob.pageDeps) _ (by rw [hp2]; exact hx)
                have hnotrel : (n - 1).toNat ∉
                    (releaseMemoryIfRequired d₂ (some blob.pageDeps)).1.loadedPageNumbers :=
                  releaseMemory_not_loaded d₂ (some blob.pageDeps) _ (by rw [hl2]; exact hidxnot)
                have hInvMid : DocInv (X + (blob.byteLength : Int))
                    { d with lastRequestedPage := none,
                             memoryUsage := d.memoryUsage + (blob.byteLength : Int) } := by
                  refine ⟨?_, hB, hC, hK⟩
                  show d.memoryUsage + (blob.byteLength : Int)
                    = X + (blob.byteLength : Int) + loadedBytes d.pages + djviBytes d.djvi
                  rw [hA]
                  ring
                have hInv2 : DocInv (X + (blob.byteLength : Int)) d₂ := by
                  have h6 := loadDependencies_docInv (X + (blob.byteLength : Int)) _
                    fetch blob.pageDeps (some n) hInvMid (hdeps _ blob hf)
                  rw [hld] at h6
                  exact h6
                have hInvRel : DocInv (X + (blob.byteLength : Int))
                    (releaseMemoryIfRequired d₂ (some blob.pageDeps)).1 :=
                  releaseMemory_docInv _ d₂ blob.pageDeps hInv2 (hdeps _ blob hf)
                have hd' : d' =
                    { (releaseMemoryIfRequired d₂ (some blob.pageDeps)).1 with
                        pages := (releaseMemoryIfRequired d₂ (some blob.pageDeps)).1.pages.set (n - 1).toNat (some ⟨blob.token, blob.byteLength, blob.pageDeps⟩),
                        loadedPageNumbers := (releaseMemoryIfRequired d₂ (some blob.pageDeps)).1.loadedPageNumbers ++ [(n - 1).toNat],
                        lastRequestedPage := some ⟨blob.token, blob.byteLength, blob.pageDeps⟩ } :=
                  (congrArg (fun t => t.2.1) hgp).symm
                rw [hd']
                refine ⟨⟨?_, ?_, ?_, ?_⟩, ?_⟩
                · show (releaseMemoryIfRequired d₂ (some blob.pageDeps)).1.memoryUsage
                    = X + loadedBytes
                        ((releaseMemoryIfRequired d₂ (some blob.pageDeps)).1.pages.set
                          (n - 1).toNat
                          (some ⟨blob.token, blob.byteLength, blob.pageDeps⟩))
                      + djviBytes (releaseMemoryIfRequired d₂ (some blob.pageDeps)).1.djvi
                  rw [loadedBytes_set_some _ _ _ hslotrel]
                  have hnpb : (((⟨blob.token, blob.byteLength, blob.pageDeps⟩ :
                      DjVuPage).byteLength : Nat) : Int) = (blob.byteLength : Int) := rfl
                  rw [hnpb, hInvRel.1]
                  ring
                · show ((releaseMemoryIfRequired d₂ (some blob.pageDeps)).1.loadedPageNumbers
                    ++ [(n - 1).toNat]).Nodup
                  refine List.nodup_append.mpr ⟨hInvRel.2.1, List.nodup_singleton _, ?_⟩
                  intro a ha ha2
                  rw [List.mem_singleton] at ha2
                  subst ha2
                  exact hnotrel ha
                · show ∀ i ∈ (releaseMemoryIfRequired d₂ (some blob.pageDeps)).1.loadedPageNumbers
                      ++ [(n - 1).toNat],
                    ((((releaseMemoryIfRequired d₂ (some blob.pageDeps)).1.pages.set
                      (n - 1).toNat
                      (some ⟨blob.token, blob.byteLength, blob.pageDeps⟩))[i]?).join).isSome
                  intro i hi
                  rcases List.mem_append.mp hi with h7 | h7
                  · have hne : (n - 1).toNat ≠ i := fun he => hnotrel (by rw [he]; exact h7)
                    rw [List.getElem?_set_ne hne]
                    exact hInvRel.2.2.1 i h7
                  · rw [List.mem_singleton] at h7
                    subst h7
                    have hltrel : (n - 1).toNat <
                        (releaseMemoryIfRequired d₂ (some blob.pageDeps)).1.pages.length := by
                      by_contra hge
                      rw [List.getElem?_eq_none_iff.mpr (by omega)] at hslotrel
                      exact Option.noConfusion hslotrel
                    rw [List.getElem?_set_self hltrel]
                    rfl
                · exact hInvRel.2.2.2
                · show (releaseMemoryIfRequired d₂ (some blob.pageDeps)).1.id = d.id
                  exact ((releaseMemory_frame d₂ (some blob.pageDeps)).1).trans hid2
  · unfold getPage at hgp
    rw [hslot] at hgp
    dsimp only at hgp
    rw [if_neg (fun hc => hdjvu hc.2)] at hgp
    have hd' : d' = { d with lastRequestedPage := some p₀ } :=
      (congrArg (fun t => t.2.1) hgp).symm
    rw [hd']
    exact ⟨⟨hA, hB, hC, hK⟩, rfl⟩

/-- The bookkeeping invariant is preserved along any all-successful load
sequence. -/
theorem runSuccessfulLoads_docInv (X : Int) (fetch : String → FetchOutcome)
    (hdeps : ∀ url blob, fetch url = .success blob → blob.pageDeps.Nodup) :
    ∀ (ns : List Int) (d dfin : DjVuDocument), DocInv X d → ¬ d.id = "FORMDJVU" →
      runSuccessfulLoads fetch ns d = some dfin →
      DocInv X dfin ∧ dfin.id = d.id := by
  intro ns
  induction ns with
  | nil =>
    intro d dfin hInv hid hrun
    have hde : d = dfin := by
      have h0 : some d = some dfin := hrun
      injection h0
    subst hde
    exact ⟨hInv, rfl⟩
  | cons n ns ih =>
    intro d dfin hInv hid hrun
    unfold runSuccessfulLoads at hrun
    rcases hg : getPage d fetch n with ⟨res, d1, e1⟩
    rw [hg] at hrun
    cases res with
    | error err =>
      exact Option.noConfusion hrun
    | ok q =>
      obtain ⟨hInv1, hid1⟩ := getPage_ok_docInv X d fetch hdeps n q d1 e1 hInv hid hg
      obtain ⟨hInvf, hidf⟩ := ih d1 dfin hInv1 (by rw [hid1]; exact hid) hrun
      exact ⟨hInvf, hidf.trans hid1⟩

/-- C3 counterexample: one successful load of page 1 of the three-page
indirect fixture.  The sequence succeeds, yet the resident-byte counter is
150 (100-byte header + 40-byte page + 10-byte resource) while the
loaded-pages-plus-resources sum is only 50: the counter also carries the
header buffer's size, so it does not equal the claimed sum. -/
theorem memory_accounting_counterexample :
    (runSuccessfulLoads exFetchOk [1] exIndirectDoc).map
        (fun dfin => (dfin.memoryUsage, loadedBytes dfin.pages + djviBytes dfin.djvi))
      = some (150, 50) := by decide

/-- C3 amended: on an indirect document, after every all-successful load
sequence the resident-byte counter equals the header buffer's size plus the
bytes of the currently loaded pages plus the currently resident shared
resources (not the pages-plus-resources sum alone); and after a governor run
either the counter is within the budget or no eviction candidates remain:
no loaded pages, and every resident resource identifier is in the preserve
set. -/
theorem memory_accounting_and_governor (header pagesQuantity : Nat)
    (burl : Option String) (limit : Int) (pname : Int → String) (cname : String → String)
    (fetch : String → FetchOutcome)
    (hdeps : ∀ url blob, fetch url = .success blob → blob.pageDeps.Nodup)
    (ns : List Int) (dfin : DjVuDocument)
    (hrun : runSuccessfulLoads fetch ns
        (mkIndirectDocument header pagesQuantity burl limit pname cname) = some dfin)
    (pres : List String) (hpn : pres.Nodup) :
    dfin.memoryUsage = (header : Int) + loadedBytes dfin.pages + djviBytes dfin.djvi ∧
    ((releaseMemoryIfRequired dfin (some pres)).1.memoryUsage ≤ dfin.memoryLimit ∨
      ((releaseMemoryIfRequired dfin (some pres)).1.loadedPageNumbers = [] ∧
        ∀ id, (lookupId (releaseMemoryIfRequired dfin (some pres)).1.djvi id).isSome →
          id ∈ pres)) := by
  have hInv0 : DocInv (header : Int)
      (mkIndirectDocument header pagesQuantity burl limit pname cname) := by
    refine ⟨?_, List.nodup_nil, ?_, List.nodup_nil⟩
    · show (header : Int)
        = (header : Int) + loadedBytes (List.replicate pagesQuantity none) + djviBytes []
      rw [loadedBytes_replicate]
      have hdz : djviBytes ([] : List (String × Nat)) = 0 := rfl
      rw [hdz]
      ring
    · intro i hi
      exact absurd hi (List.not_mem_nil i)
  obtain ⟨hInvf, _⟩ := runSuccessfulLoads_docInv (header : Int) fetch hdeps ns _ dfin hInv0
    (show ¬ ("FORMDJVM" : String) = "FORMDJVU" by decide) hrun
  exact ⟨hInvf.1, releaseMemory_postcondition dfin pres hInvf.2.1 hInvf.2.2.1 hpn⟩

/-- C3 witness: the amended accounting applied to one successful load of
page 1 of the three-page indirect fixture. -/
theorem memory_accounting_and_governor_witness :
    ((runSuccessfulLoads exFetchOk [1] exIndirectDoc).getD exIndirectDoc).memoryUsage
      = (100 : Int)
        + loadedBytes ((runSuccessfulLoads exFetchOk [1] exIndirectDoc).getD exIndirectDoc).pages
        + djviBytes ((runSuccessfulLoads exFetchOk [1] exIndirectDoc).getD exIndirectDoc).djvi :=
  (memory_accounting_and_governor 100 3 (some "http://x") 1000000
    (fun _ => "p.djvu") (fun s => s) exFetchOk
    (by
      intro url blob h
      unfold exFetchOk at h
      by_cases h1 : url = "http://x/p.djvu"
      · rw [if_pos h1] at h
        injection h with h
        rw [← h]
        decide
      · rw [if_neg h1] at h
        by_cases h2 : url = "http://x/a"
        · rw [if_pos h2] at h
          injection h with h
          rw [← h]
          decide
        · rw [if_neg h2] at h
          exact FetchOutcome.noConfusion h)
    [1] ((runSuccessfulLoads exFetchOk [1] exIndirectDoc).getD exIndirectDoc) rfl
    ["a"] (by decide)).1

/-- `slotAt` only reads the slot list. -/
theorem slotAt_pages_eq (d1 d2 : DjVuDocument) (h : d1.pages = d2.pages) (n : Int) :
    slotAt d1 n = slotAt d2 n := by
  unfold slotAt
  rw [h]

/-- The governor never drops a resource named in the preserve set (stated
without bookkeeping hypotheses). -/
theorem releaseMemory_djvi_preserved (d : DjVuDocument) (pres : List String)
    (hpn : pres.Nodup) (id : String) (hid : id ∈ pres) :
    lookupId (releaseMemoryIfRequired d (some pres)).1.djvi id = lookupId d.djvi id := by
  unfold releaseMemoryIfRequired
  by_cases h1 : d.memoryUsage ≤ d.memoryLimit
  · rw [if_pos h1]
  · rw [if_neg h1]
    dsimp only
    by_cases h2 : d.memoryLimit <
        (evictPagesLoop d.memoryLimit d.pages d.loadedPageNumbers d.memoryUsage).2.2 ∧
        (evictPagesLoop d.memoryLimit d.pages d.loadedPageNumbers d.memoryUsage).2.1 = []
    · rw [if_pos h2]
      show lookupId (restrictDjvi d.djvi pres) id = lookupId d.djvi id
      rw [lookupId_restrictDjvi d.djvi pres hpn id, if_pos hid]
    · rw [if_neg h2]

/-- A `getPage` call on a slot that already holds the held page returns that
page again with no effects at all, provided either the single-page
dependency pass is not pending or the page's dependencies are all
resident. -/
theorem getPage_second (d₁ : DjVuDocument) (fetch : String → FetchOutcome) (n : Int)
    (p : DjVuPage)
    (hslot₁ : slotAt d₁ n = some p)
    (hlast₁ : d₁.lastRequestedPage = some p)
    (hflag : ¬(d₁.isOnePageDependenciesLoaded = false ∧ d₁.id = "FORMDJVU") ∨
      ∀ id ∈ p.deps, (lookupId d₁.djvi id).isSome) :
    (getPage d₁ fetch n).1 = .ok p ∧ (getPage d₁ fetch n).2.2 = [] := by
  unfold getPage
  rw [hslot₁]
  dsimp only
  rw [hlast₁]
  dsimp only
  by_cases hcond : d₁.isOnePageDependenciesLoaded = false ∧ d₁.id = "FORMDJVU"
  · rw [if_pos hcond]
    rcases hflag with hnc | hpres
    · exact absurd hcond hnc
    · by_cases hemp : p.deps.isEmpty = true
      · rw [if_pos hemp]
        refine ⟨rfl, ?_⟩
        show (if p.token ≠ p.token then [Effect.reset p.token] else []) = []
        rw [if_neg (fun hh => hh rfl)]
      · rw [if_neg hemp]
        have hfe : (p.deps.filter (fun id => (lookupId d₁.djvi id).isNone)).isEmpty = true := by
          rw [List.isEmpty_iff]
          apply List.filter_eq_nil_iff.mpr
          intro id hid hno
          have hsome := hpres id hid
          rw [Option.isNone_iff_eq_none] at hno
          rw [hno] at hsome
          simp at hsome
        have hldeq : loadDependencies { d₁ with lastRequestedPage := some p }
            fetch p.deps (some 1) = (none, { d₁ with lastRequestedPage := some p }, []) := by
          unfold loadDependencies
          rw [if_pos hfe]
        rw [hldeq]
        dsimp only
        refine ⟨rfl, ?_⟩
        show (if p.token ≠ p.token then [Effect.reset p.token] else []) ++ [] = []
        rw [if_neg (fun hh => hh rfl)]
        rfl
  · rw [if_neg hcond]
    refine ⟨rfl, ?_⟩
    show (if p.token ≠ p.token then [Effect.reset p.token] else []) = []
    rw [if_neg (fun hh => hh rfl)]

/-- After a successful `getPage`, the returned page sits in the requested
slot, the held decode-state pointer references it, and either the
single-page dependency pass is not pending or the page's dependencies are
all resident. -/
theorem getPage_first_post (d : DjVuDocument) (fetch : String → FetchOutcome)
    (hdeps : ∀ url blob, fetch url = .success blob → blob.pageDeps.Nodup)
    (n : Int) (p : DjVuPage) (d₁ : DjVuDocument) (effs : List Effect)
    (hgp : getPage d fetch n = (.ok p, d₁, effs)) :
    slotAt d₁ n = some p ∧ d₁.lastRequestedPage = some p ∧
      (¬(d₁.isOnePageDependenciesLoaded = false ∧ d₁.id = "FORMDJVU") ∨
        ∀ id ∈ p.deps, (lookupId d₁.djvi id).isSome) := by
  rcases hslot : slotAt d n with _ | p₀
  · unfold getPage at hgp
    rw [hslot] at hgp
    dsimp only at hgp
    by_cases hin : n < 1 ∨ (d.pages.length : Int) < n ∨ isBundled d = true
    · rw [if_pos hin] at hgp
      simp at hgp
    · rw [if_neg hin] at hgp
      push_neg at hin
      by_cases hbase : d.baseUrl = none
      · rw [if_pos hbase] at hgp
        simp at hgp
      · rw [if_neg hbase] at hgp
        rcases hf : fetch (jsStringOfBaseUrl d.baseUrl ++ d.dirmPageName n) with _ | _ | blob
        · rw [hf] at hgp
          simp at hgp
        · rw [hf] at hgp
          simp at hgp
        · rw [hf] at hgp
          dsimp only at hgp
          by_cases hmagic : blob.magicOk = false
          · rw [if_pos hmagic] at hgp
            simp at hgp
          · rw [if_neg hmagic] at hgp
            rcases hld : loadDependencies
                { d with lastRequestedPage := none,
                         memoryUsage := d.memoryUsage + (blob.byteLength : Int) }
                fetch blob.pageDeps (some n) with ⟨eopt, d₂, deff⟩
            rw [hld] at hgp
            cases eopt with
            | some e =>
              simp at hgp
            | none =>
              dsimp only at hgp
              have hpq : (Except.ok (⟨blob.token, blob.byteLength, blob.pageDeps⟩ : DjVuPage) :
                  Except DjVuError DjVuPage) = .ok p := congrArg (fun t => t.1) hgp
              injection hpq with hpq
              subst hpq
              have hd' : d₁ =
                  { (releaseMemoryIfRequired d₂ (some blob.pageDeps)).1 with
                      pages := (releaseMemoryIfRequired d₂ (some blob.pageDeps)).1.pages.set (n - 1).toNat (some ⟨blob.token, blob.byteLength, blob.pageDeps⟩),
                      loadedPageNumbers := (releaseMemoryIfRequired d₂ (some blob.pageDeps)).1.loadedPageNumbers ++ [(n - 1).toNat],
                      lastRequestedPage := some ⟨blob.token, blob.byteLength, blob.pageDeps⟩ } :=
                (congrArg (fun t => t.2.1) hgp).symm
              have hfr := loadDependencies_frame
                { d with lastRequestedPage := none,
                         memoryUsage := d.memoryUsage + (blob.byteLength : Int) }
                fetch blob.pageDeps (some n)
              rw [hld] at hfr
              have hp2 : d₂.pages = d.pages := hfr.1
              have hidxlt : (n - 1).toNat < d.pages.length := by omega
              have hltrel : (n - 1).toNat <
                  (releaseMemoryIfRequired d₂ (some blob.pageDeps)).1.pages.length := by
                rw [releaseMemory_pages_length, hp2]
                exact hidxlt
              have hlenR :
                  ((releaseMemoryIfRequired d₂ (some blob.pageDeps)).1.pages.set
                    (n - 1).toNat
                    (some ⟨blob.token, blob.byteLength, blob.pageDeps⟩)).length
                  = d.pages.length := by
                rw [List.length_set, releaseMemory_pages_length, hp2]
              refine ⟨?_, ?_, ?_⟩
              · rw [hd']
                unfold slotAt
                dsimp only
                rw [if_pos ⟨hin.1, by rw [hlenR]; exact hin.2.1⟩]
                rw [List.getElem?_set_self hltrel]
                rfl
              · rw [hd']
              · right
                intro id hid
                have hiddeps : id ∈ blob.pageDeps := hid
                have hok : (loadDependencies
                    { d with lastRequestedPage := none,
                             memoryUsage := d.memoryUsage + (blob.byteLength : Int) }
                    fetch blob.pageDeps (some n)).1 = none := by
                  rw [hld]
                have happ := loadDependencies_success_all_present
                  { d with lastRequestedPage := none,
                           memoryUsage := d.memoryUsage + (blob.byteLength : Int) }
                  fetch blob.pageDeps (some n) hok id hiddeps
                rw [hld] at happ
                have hkeep := releaseMemory_djvi_preserved d₂ blob.pageDeps
                  (hdeps _ blob hf) id hiddeps
                rw [hd']
                show (lookupId (releaseMemoryIfRequired d₂ (some blob.pageDeps)).1.djvi id).isSome
                rw [hkeep]
                exact happ
  · unfold getPage at hgp
    rw [hslot] at hgp
    dsimp only at hgp
    by_cases hflag : d.isOnePageDependenciesLoaded = false ∧ d.id = "FORMDJVU"
    · rw [if_pos hflag] at hgp
      by_cases hemp : p₀.deps.isEmpty = true
      · rw [if_pos hemp] at hgp
        have hpq : (Except.ok p₀ : Except DjVuError DjVuPage) = .ok p :=
          congrArg (fun t => t.1) hgp
        injection hpq with hpq
        subst hpq
        have hd' : d₁ =
            { d with lastRequestedPage := some p₀, isOnePageDependenciesLoaded := true } :=
          (congrArg (fun t => t.2.1) hgp).symm
        refine ⟨?_, ?_, ?_⟩
        · rw [hd']
          exact hslot
        · rw [hd']
        · rw [hd']
          exact Or.inl (fun hc => absurd hc.1 (show ¬ (true = false) by decide))
      · rw [if_neg hemp] at hgp
        rcases hld : loadDependencies { d with lastRequestedPage := some p₀ }
            fetch p₀.deps (some 1) with ⟨eopt, d₂, deff⟩
        rw [hld] at hgp
        cases eopt with
        | some e =>
          simp at hgp
        | none =>
          dsimp only at hgp
          have hpq : (Except.ok p₀ : Except DjVuError DjVuPage) = .ok p :=
            congrArg (fun t => t.1) hgp
          injection hpq with hpq
          subst hpq
          have hd' : d₁ = { d₂ with isOnePageDependenciesLoaded := true } :=
            (congrArg (fun t => t.2.1) hgp).symm
          have hfr := loadDependencies_frame { d with lastRequestedPage := some p₀ }
            fetch p₀.deps (some 1)
          rw [hld] at hfr
          have hp2 : d₂.pages = d.pages := hfr.1
          have hlast2 : d₂.lastRequestedPage = some p₀ := hfr.2.2.1
          refine ⟨?_, ?_, ?_⟩
          · rw [hd']
            have hse : slotAt { d₂ with isOnePageDependenciesLoaded := true } n = slotAt d n :=
              slotAt_pages_eq _ d hp2 n
            rw [hse]
            exact hslot
          · rw [hd']
            exact hlast2
          · rw [hd']
            exact Or.inl (fun hc => absurd hc.1 (show ¬ (true = false) by decide))
    · rw [if_neg hflag] at hgp
      have hpq : (Except.ok p₀ : Except DjVuError DjVuPage) = .ok p :=
        congrArg (fun t => t.1) hgp
      injection hpq with hpq
      subst hpq
      have hd' : d₁ = { d with lastRequestedPage := some p₀ } :=
        (congrArg (fun t => t.2.1) hgp).symm
      refine ⟨?_, ?_, ?_⟩
      · rw [hd']
        exact hslot
      · rw [hd']
      · rw [hd']
        exact Or.inl (fun hc => hflag hc)

/-- C9: after a successful `getPage(n)`, the returned page is resident in
slot `n`, and a second `getPage(n)` with no intervening eviction returns the
very same page object with no observable effects at all — in particular it
performs no additional fetch. -/
theorem getPage_idempotent (d : DjVuDocument) (fetch : String → FetchOutcome)
    (hdeps : ∀ url blob, fetch url = .success blob → blob.pageDeps.Nodup)
    (n : Int) (p : DjVuPage) (d₁ : DjVuDocument) (effs : List Effect)
    (hgp : getPage d fetch n = (.ok p, d₁, effs)) :
    slotAt d₁ n = some p ∧
    (getPage d₁ fetch n).1 = .ok p ∧
    (getPage d₁ fetch n).2.2 = [] := by
  obtain ⟨h1, h2, h3⟩ := getPage_first_post d fetch hdeps n p d₁ effs hgp
  exact ⟨h1, (getPage_second d₁ fetch n p h1 h2 h3).1,
    (getPage_second d₁ fetch n p h1 h2 h3).2⟩

/-- C9 witness: requesting page 1 of the loaded bundled fixture twice. -/
theorem getPage_idempotent_witness :
    slotAt (getPage exBundledDoc exFetch 1).2.1 1 = some ⟨3, 50, []⟩ ∧
    (getPage (getPage exBundledDoc exFetch 1).2.1 exFetch 1).1 = .ok ⟨3, 50, []⟩ ∧
    (getPage (getPage exBundledDoc exFetch 1).2.1 exFetch 1).2.2 = [] :=
  getPage_idempotent exBundledDoc exFetch
    (by
      intro url blob h
      unfold exFetch at h
      by_cases h1 : url = "http://x/p.djvu"
      · rw [if_pos h1] at h
        injection h with h
        rw [← h]
        decide
      · rw [if_neg h1] at h
        by_cases h2 : url = "http://x/a"
        · rw [if_pos h2] at h
          injection h with h
          rw [← h]
          decide
        · rw [if_neg h2] at h
          by_cases h3 : url = "http://x/b"
          · rw [if_pos h3] at h
            exact FetchOutcome.noConfusion h
          · rw [if_neg h3] at h
            by_cases h4 : url = "http://x/c"
            · rw [if_pos h4] at h
              injection h with h
              rw [← h]
              decide
            · rw [if_neg h4] at h
              exact FetchOutcome.noConfusion h)
    1 ⟨3, 50, []⟩ (getPage exBundledDoc exFetch 1).2.1 (getPage exBundledDoc exFetch 1).2.2
    rfl

/-- Taking `1 + k` elements of a cons. -/
theorem take_one_plus {α : Type} (a : α) (l : List α) (k : Nat) :
    (a :: l).take (1 + k) = a :: l.take k := by
  rw [Nat.add_comm]
  rfl

/-- Pass 2 emits nothing once the page quota is exhausted. -/
theorem slicePass2_stop : ∀ (entries : List DirmEntry) (frm pN : Nat)
    (depSet : List String) (pidx added : Nat), pN ≤ added →
    slicePass2 entries frm pN depSet pidx added = []
  | [], _, _, _, _, _, _ => rfl
  | e :: rest, frm, pN, depSet, pidx, added, h => by
    unfold slicePass2
    rw [if_neg (by omega)]

/-- Pass 1 collects nothing once the page quota is exhausted. -/
theorem slicePass1_stop : ∀ (entries : List DirmEntry) (frm pN : Nat)
    (pidx added : Nat), pN ≤ added →
    slicePass1 entries frm pN pidx added = []
  | [], _, _, _, _, _ => rfl
  | e :: rest, frm, pN, pidx, added, h => by
    unfold slicePass1
    rw [if_neg (by omega)]

/-- A zero page quota scans nothing. -/
theorem sliceScanLen_zero (entries : List DirmEntry) : sliceScanLen entries 0 = 0 := by
  cases entries with
  | nil => rfl
  | cons e rest =>
    unfold sliceScanLen
    rw [if_neg (by omega)]

/-- Pass 2 from page 1: the output is the scanned prefix filtered to in-range
pages and entries whose identifier is in the dependency set.  Entries beyond
the scanned prefix are never copied. -/
theorem slicePass2_one : ∀ (entries : List DirmEntry) (pN added : Nat)
    (depSet : List String) (pidx : Nat), added ≤ pN →
    slicePass2 entries 1 pN depSet pidx added
      = (entries.take (sliceScanLen entries (pN - added))).filter
          (fun e => isPageEntry e || decide (e.id ∈ depSet))
  | [], _, _, _, _, _ => rfl
  | e :: rest, pN, added, depSet, pidx, h => by
    unfold slicePass2
    by_cases hlt : added < pN
    · rw [if_pos hlt]
      have hq : 0 < pN - added := by omega
      by_cases hpg : isPageEntry e = true
      · rw [if_pos hpg, if_neg (by omega : ¬ pidx + 1 < 1)]
        by_cases hone : pN - added = 1
        · rw [slicePass2_stop rest 1 pN depSet (pidx + 1) (added + 1) (by omega)]
          rw [show sliceScanLen (e :: rest) (pN - added) = 1 from by
            rw [sliceScanLen]
            rw [if_pos hq, if_pos hpg, if_pos hone]]
          rw [show (e :: rest).take 1 = [e] from rfl]
          rw [List.filter_cons_of_pos (by simp [hpg]), List.filter_nil]
        · rw [slicePass2_one rest pN (added + 1) depSet (pidx + 1) (by omega)]
          rw [show pN - (added + 1) = pN - added - 1 from by omega]
          rw [show sliceScanLen (e :: rest) (pN - added)
              = 1 + sliceScanLen rest (pN - added - 1) from by
            rw [sliceScanLen]
            rw [if_pos hq, if_pos hpg, if_neg hone]]
          rw [take_one_plus, List.filter_cons_of_pos (by simp [hpg])]
      · rw [if_neg hpg]
        have hpf : isPageEntry e = false := by
          cases hcase : isPageEntry e
          · rfl
          · exact absurd hcase hpg
        by_cases hdep : e.id ∈ depSet
        · rw [if_pos hdep]
          rw [slicePass2_one rest pN added depSet pidx h]
          rw [show sliceScanLen (e :: rest) (pN - added)
              = 1 + sliceScanLen rest (pN - added) from by
            rw [sliceScanLen]
            rw [if_pos hq, if_neg hpg]]
          rw [take_one_plus, List.filter_cons_of_pos (by simp [hpf, hdep])]
        · rw [if_neg hdep]
          rw [slicePass2_one rest pN added depSet pidx h]
          rw [show sliceScanLen (e :: rest) (pN - added)
              = 1 + sliceScanLen rest (pN - added) from by
            rw [sliceScanLen]
            rw [if_pos hq, if_neg hpg]]
          rw [take_one_plus, List.filter_cons_of_neg (by simp [hpf, hdep])]
    · rw [if_neg hlt]
      rw [show pN - added = 0 from by omega, sliceScanLen_zero]
      rfl

/-- Pass 1 from page 1: the dependency set is exactly the concatenation of
the dependency lists of the page entries in the scanned prefix. -/
theorem slicePass1_one : ∀ (entries : List DirmEntry) (pN added : Nat)
    (pidx : Nat), added ≤ pN →
    slicePass1 entries 1 pN pidx added
      = ((entries.take (sliceScanLen entries (pN - added))).filter
          (fun e => isPageEntry e)).flatMap (fun e => e.deps)
  | [], _, _, _, _ => rfl
  | e :: rest, pN, added, pidx, h => by
    unfold slicePass1
    by_cases hlt : added < pN
    · rw [if_pos hlt]
      have hq : 0 < pN - added := by omega
      by_cases hpg : isPageEntry e = true
      · rw [if_pos hpg, if_neg (by omega : ¬ pidx + 1 < 1)]
        by_cases hone : pN - added = 1
        · rw [slicePass1_stop rest 1 pN (pidx + 1) (added + 1) (by omega)]
          rw [show sliceScanLen (e :: rest) (pN - added) = 1 from by
            rw [sliceScanLen]
            rw [if_pos hq, if_pos hpg, if_pos hone]]
          rw [show (e :: rest).take 1 = [e] from rfl]
          rw [List.filter_cons_of_pos (by simp [hpg]), List.flatMap_cons]
          rfl
        · rw [slicePass1_one rest pN (added + 1) (pidx + 1) (by omega)]
          rw [show pN - (added + 1) = pN - added - 1 from by omega]
          rw [show sliceScanLen (e :: rest) (pN - added)
              = 1 + sliceScanLen rest (pN - added - 1) from by
            rw [sliceScanLen]
            rw [if_pos hq, if_pos hpg, if_neg hone]]
          rw [take_one_plus, List.filter_cons_of_pos (by simp [hpg]), List.flatMap_cons]
      · rw [if_neg hpg]
        have hpf : isPageEntry e = false := by
          cases hcase : isPageEntry e
          · rfl
          · exact absurd hcase hpg
        rw [slicePass1_one rest pN added pidx h]
        rw [show sliceScanLen (e :: rest) (pN - added)
            = 1 + sliceScanLen rest (pN - added) from by
          rw [sliceScanLen]
          rw [if_pos hq, if_neg hpg]]
        rw [take_one_plus, List.filter_cons_of_neg (by simp [hpf])]
    · rw [if_neg hlt]
      rw [show pN - added = 0 from by omega, sliceScanLen_zero]
      rfl

/-- When the quota does not exceed the number of page entries, the scanned
prefix contains exactly `pN` page entries. -/
theorem pages_in_scan_exact : ∀ (entries : List DirmEntry) (pN : Nat),
    pN ≤ (entries.filter (fun e => isPageEntry e)).length →
    ((entries.take (sliceScanLen entries pN)).filter (fun e => isPageEntry e)).length = pN
  | [], pN, h => by
    simp at h
    subst h
    rfl
  | e :: rest, pN, h => by
    by_cases h0 : 0 < pN
    · by_cases hpg : isPageEntry e = true
      · have hcnt : ((e :: rest).filter (fun e => isPageEntry e)).length
            = (rest.filter (fun e => isPageEntry e)).length + 1 := by
          rw [List.filter_cons_of_pos (by simp [hpg])]
          rfl
        by_cases hone : pN = 1
        · subst hone
          rw [show sliceScanLen (e :: rest) 1 = 1 from by
            rw [sliceScanLen]
            rw [if_pos h0, if_pos hpg, if_pos rfl]]
          rw [show (e :: rest).take 1 = [e] from rfl]
          rw [List.filter_cons_of_pos (by simp [hpg]), List.filter_nil]
          rfl
        · rw [show sliceScanLen (e :: rest) pN = 1 + sliceScanLen rest (pN - 1) from by
            rw [sliceScanLen]
            rw [if_pos h0, if_pos hpg, if_neg hone]]
          rw [take_one_plus, List.filter_cons_of_pos (by simp [hpg])]
          have hih := pages_in_scan_exact rest (pN - 1) (by rw [hcnt] at h; omega)
          show ((rest.take (sliceScanLen rest (pN - 1))).filter
            (fun e => isPageEntry e)).length + 1 = pN
          rw [hih]
          omega
      · have hpf : isPageEntry e = false := by
          cases hcase : isPageEntry e
          · rfl
          · exact absurd hcase hpg
        rw [show sliceScanLen (e :: rest) pN = 1 + sliceScanLen rest pN from by
          rw [sliceScanLen]
          rw [if_pos h0, if_neg hpg]]
        rw [take_one_plus, List.filter_cons_of_neg (by simp [hpf])]
        apply pages_in_scan_exact rest pN
        rw [List.filter_cons_of_neg (by simp [hpf])] at h
        exact h
    · have hz : pN = 0 := by omega
      subst hz
      rw [sliceScanLen_zero]
      rfl

/-- C2 counterexample: a one-page document whose shared dictionary is stored
AFTER the page entry.  `slice(1, 1)` collects the page's dependency `d` in
pass 1, but the loop guard `addedPageCount < pageNumber` stops pass 2 right
after the page entry, so the dictionary is never copied even though its
identifier is in the dependency set — and the re-parsed page's dependency
set is not a subset of the sliced document's resource identifiers. -/
theorem sliceDocument_counterexample :
    sliceDocument
        [{ flags := 1, size := 10, id := "p1", name := "p1", title := "", formId := "FORMDJVU", deps := ["d"] },
         { flags := 0, size := 5, id := "d", name := "d", title := "", formId := "FORMDJVI", deps := [] }] 1 1
      = [{ flags := 1, size := 10, id := "p1", name := "p1", title := "", formId := "FORMDJVU", deps := ["d"] }] ∧
    "d" ∈ slicePass1
        [{ flags := 1, size := 10, id := "p1", name := "p1", title := "", formId := "FORMDJVU", deps := ["d"] },
         { flags := 0, size := 5, id := "d", name := "d", title := "", formId := "FORMDJVI", deps := [] }] 1 1 0 0 ∧
    ¬ (∀ e ∈ reparsedPageEntries (sliceDocument
        [{ flags := 1, size := 10, id := "p1", name := "p1", title := "", formId := "FORMDJVU", deps := ["d"] },
         { flags := 0, size := 5, id := "d", name := "d", title := "", formId := "FORMDJVI", deps := [] }] 1 1),
      ∀ dep ∈ e.deps, dep ∈ reparsedResourceIds (sliceDocument
        [{ flags := 1, size := 10, id := "p1", name := "p1", title := "", formId := "FORMDJVU", deps := ["d"] },
         { flags := 0, size := 5, id := "d", name := "d", title := "", formId := "FORMDJVI", deps := [] }] 1 1)) := by
  decide

/-- C2 amended: `slice(1, toPage)` examines exactly the prefix up to the
`toPage`-th page entry.  When the directory holds `toPage` page entries, the
sliced output holds exactly `toPage` pages; a non-page entry is copied iff it
lies in the scanned prefix AND its identifier is in the pass-1 dependency
set (entries after the last in-range page are never copied, even when
referenced); thumbnails are never copied; and the per-page dependency
subset round-trip holds under the layout hypothesis that every referenced
dictionary lies within the scanned prefix. -/
theorem sliceDocument_roundtrip (entries : List DirmEntry) (toPage : Nat)
    (hwf : ∀ e ∈ entries, isPageEntry e = (e.formId == "FORMDJVU"))
    (hpc : (entries.filter (fun e => isPageEntry e)).length = toPage)
    (hthm : ∀ e ∈ entries, e.formId = "FORMTHUM" →
      e.id ∉ slicePass1 entries 1 toPage 0 0)
    (hdeploc : ∀ id ∈ slicePass1 entries 1 toPage 0 0,
      ∃ e ∈ entries.take (sliceScanLen entries toPage),
        e.formId = "FORMDJVI" ∧ e.id = id) :
    (reparsedPageEntries (sliceDocument entries 1 toPage)).length = toPage ∧
    (∀ e ∈ reparsedPageEntries (sliceDocument entries 1 toPage),
      ∀ dep ∈ e.deps, dep ∈ reparsedResourceIds (sliceDocument entries 1 toPage)) ∧
    (∀ e, isPageEntry e = false →
      (e ∈ sliceDocument entries 1 toPage ↔
        e ∈ entries.take (sliceScanLen entries toPage) ∧
          e.id ∈ slicePass1 entries 1 toPage 0 0)) ∧
    reparsedThumbEntries (sliceDocument entries 1 toPage) = [] := by
  have hout : sliceDocument entries 1 toPage
      = (entries.take (sliceScanLen entries toPage)).filter
          (fun e => isPageEntry e || decide (e.id ∈ slicePass1 entries 1 toPage 0 0)) := by
    unfold sliceDocument
    dsimp only
    rw [Nat.add_sub_cancel]
    have h2 := slicePass2_one entries toPage 0 (slicePass1 entries 1 toPage 0 0) 0
      (Nat.zero_le _)
    rwa [Nat.sub_zero] at h2
  have hP1 : slicePass1 entries 1 toPage 0 0
      = ((entries.take (sliceScanLen entries toPage)).filter
          (fun e => isPageEntry e)).flatMap (fun e => e.deps) := by
    have h1 := slicePass1_one entries toPage 0 0 (Nat.zero_le _)
    rwa [Nat.sub_zero] at h1
  have hpages : reparsedPageEntries (sliceDocument entries 1 toPage)
      = (entries.take (sliceScanLen entries toPage)).filter (fun e => isPageEntry e) := by
    rw [hout]
    unfold reparsedPageEntries
    rw [List.filter_filter]
    apply List.filter_congr
    intro e he
    have hwfe := hwf e (List.take_subset _ _ he)
    rw [← hwfe]
    cases hcase : isPageEntry e <;> simp
  refine ⟨?_, ?_, ?_, ?_⟩
  · rw [hpages]
    exact pages_in_scan_exact entries toPage (by omega)
  · intro e he dep hdep
    rw [hpages] at he
    have heTake : e ∈ entries.take (sliceScanLen entries toPage) :=
      (List.mem_filter.mp he).1
    have hePage : isPageEntry e = true := (List.mem_filter.mp he).2
    have hdepP1 : dep ∈ slicePass1 entries 1 toPage 0 0 := by
      rw [hP1]
      exact List.mem_flatMap.mpr ⟨e, List.mem_filter.mpr ⟨heTake, hePage⟩, hdep⟩
    obtain ⟨ed, hedmem, hedform, hedid⟩ := hdeploc dep hdepP1
    have hedout : ed ∈ sliceDocument entries 1 toPage := by
      rw [hout]
      refine List.mem_filter.mpr ⟨hedmem, ?_⟩
      have hdec : decide (ed.id ∈ slicePass1 entries 1 toPage 0 0) = true := by
        rw [decide_eq_true_eq, hedid]
        exact hdepP1
      rw [hdec]
      cases isPageEntry ed <;> rfl
    unfold reparsedResourceIds
    refine List.mem_map.mpr ⟨ed, ?_, hedid⟩
    refine List.mem_filter.mpr ⟨hedout, ?_⟩
    rw [hedform]
    decide
  · intro e hpe
    rw [hout]
    constructor
    · intro hmem
      obtain ⟨ht, hp⟩ := List.mem_filter.mp hmem
      refine ⟨ht, ?_⟩
      rw [hpe] at hp
      simp at hp
      exact hp
    · rintro ⟨ht, hid⟩
      refine List.mem_filter.mpr ⟨ht, ?_⟩
      rw [hpe]
      simp [hid]
  · unfold reparsedThumbEntries
    rw [hout]
    apply List.filter_eq_nil_iff.mpr
    intro e he hthum
    obtain ⟨ht, hp⟩ := List.mem_filter.mp he
    have hethum : e.formId = "FORMTHUM" := beq_iff_eq.mp hthum
    have hememb : e ∈ entries := List.take_subset _ _ ht
    have hpf : isPageEntry e = false := by
      rw [hwf e hememb, hethum]
      decide
    rw [hpf] at hp
    simp at hp
    exact hthm e hememb hethum hp

/-- C2 witness: a well-laid-out directory (dictionary before its pages). -/
theorem sliceDocument_roundtrip_witness :
    (reparsedPageEntries (sliceDocument
        [{ flags := 0, size := 5, id := "d", name := "d", title := "", formId := "FORMDJVI", deps := [] },
         { flags := 1, size := 10, id := "p1", name := "p1", title := "", formId := "FORMDJVU", deps := ["d"] },
         { flags := 1, size := 11, id := "p2", name := "p2", title := "", formId := "FORMDJVU", deps := [] }] 1 2)).length = 2 ∧
    reparsedThumbEntries (sliceDocument
        [{ flags := 0, size := 5, id := "d", name := "d", title := "", formId := "FORMDJVI", deps := [] },
         { flags := 1, size := 10, id := "p1", name := "p1", title := "", formId := "FORMDJVU", deps := ["d"] },
         { flags := 1, size := 11, id := "p2", name := "p2", title := "", formId := "FORMDJVU", deps := [] }] 1 2) = [] := by
  have h := sliceDocument_roundtrip
    [{ flags := 0, size := 5, id := "d", name := "d", title := "", formId := "FORMDJVI", deps := [] },
     { flags := 1, size := 10, id := "p1", name := "p1", title := "", formId := "FORMDJVU", deps := ["d"] },
     { flags := 1, size := 11, id := "p2", name := "p2", title := "", formId := "FORMDJVU", deps := [] }] 2
    (by decide) (by decide) (by decide) (by decide)
  exact ⟨h.1, h.2.2.2⟩
